import Mathlib

/-!
# libp2p-wrapper: framing, request/response and broadcast

A shallow embedding of `internal/p2p/type.go` and `internal/p2p/p2p.go`.

* A Go `string` and a Go `[]byte` are byte sequences: lists of naturals below 256.
* A Go `error` is represented by the text its `Error()` method returns; the
  program only ever builds errors from text and prints them with `%v`.
* A `network.Stream` is a state: the results its future `Read` and `Write`
  calls will give (chosen by the remote side and the transport), the log of
  what was written, and whether `Close` was called.
* `encoding/json` is an external library: the encoder and decoder of a
  `MessageHeader` are a parameter (`Codec`) of every operation. `goJson` is a
  model of the library on this struct; it is used where a statement depends
  on what the library does with a header, and it is proved to carry every
  header with valid UTF-8 strings unchanged (`goJson_round_trip`).
* The transport (`Host`) is a state as well: the results of its future
  `NewStream` calls, and the log of the calls made on it.
-/

namespace P2P

/-! ## Data model -/

/-- A Go `[]byte`. -/
abbrev Bytes := List Nat

/-- A Go `string`: a sequence of bytes, not necessarily valid UTF-8. -/
abbrev GoString := List Nat

/-- A Go `error`, represented by its `Error()` text. -/
abbrev Error := GoString

/-- The bytes of an ASCII string literal of the source. -/
def str (s : String) : GoString := s.toList.map Char.toNat

/-- The struct `MessageHeader` of `type.go` (`Typ` is the field `Type`). -/
structure MessageHeader where
  Typ : Int
  Size : Int
  Session : GoString
  Status : Int
  ErrorMessage : GoString
  IsBroadcast : Bool
deriving DecidableEq, Repr

/-- The struct `Message` of `type.go`. -/
structure Message where
  Header : MessageHeader
  Body : Bytes
deriving DecidableEq, Repr

/-- The two functions of `encoding/json` the program calls on a `MessageHeader`:
`json.NewEncoder(&b).Encode(m)` (which cannot fail on a struct of integers, strings
and a boolean) and `json.NewDecoder(bytes.NewReader(b)).Decode(m)` into a zero header. -/
structure Codec where
  encode : MessageHeader → Bytes
  decode : Bytes → Except Error MessageHeader

/-- What the operations depend on and the sources do not fix: the constants `RES_TYPE`
and `INTERNAL_ERROR_CODE` of the package, whose declaration is not part of the sources,
and `maxAlloc`, the largest `n` for which `make([]byte, n)` returns in this run. It is
never above the `maxAlloc` of the Go runtime (`1 << 48` on linux/amd64), above which
`make` panics with "makeslice: len out of range", and it is lower when memory is short. -/
structure Consts where
  RES_TYPE : Int
  INTERNAL_ERROR_CODE : Int
  maxAlloc : Nat

/-- Modelled from the spec: the declaration of `SUSSCESS_CODE` is missing from the
sources; the data model says "Status: integer, 0 = success". -/
def SUSSCESS_CODE : Int := 0

/-- Capacity of the header buffer and of the body read buffer (`make([]byte, 1028)`). -/
def BUF : Nat := 1028

/-! ## Streams -/

/-- What one `Read` call finds on the stream: some bytes, or a failure. -/
inductive ReadResult where
  | data (bs : Bytes)
  | fail (e : Error)
deriving DecidableEq, Repr

/-- State of a `network.Stream`. `reads` is what the following `Read` calls find
(when it is used up the stream has ended: `EOF`), `writes` is what the following
`Write` calls return (when used up: success), `written` logs the argument of every
`Write` call and `closed` records a `Close` call. -/
structure Stream where
  reads : List ReadResult
  writes : List (Option Error)
  written : List Bytes
  closed : Bool
deriving DecidableEq, Repr

/-- The text of `io.EOF`. -/
def EOF : Error := str "EOF"

/-- The call `s.Read(p)` with `len(p) = cap`: at most `cap` bytes are returned, what does not
fit stays on the stream for the next call. -/
def Stream.Read (s : Stream) (cap : Nat) : Except Error Bytes × Stream :=
  match s.reads with
  | [] => (.error EOF, s)
  | .fail e :: rest => (.error e, { s with reads := rest })
  | .data bs :: rest =>
    if bs.length ≤ cap then (.ok bs, { s with reads := rest })
    else (.ok (bs.take cap), { s with reads := .data (bs.drop cap) :: rest })

/-- The call `s.Write(p)`; the argument is logged whether the call succeeds or fails. -/
def Stream.Write (s : Stream) (p : Bytes) : Option Error × Stream :=
  match s.writes with
  | [] => (none, { s with written := s.written ++ [p] })
  | r :: rest => (r, { s with writes := rest, written := s.written ++ [p] })

/-- The call `s.Close()`. -/
def Stream.Close (s : Stream) : Stream := { s with closed := true }

/-- Number of `Read` calls with a non-empty buffer the stream can still serve before
it reports its end. -/
def readBudget : List ReadResult → Nat
  | [] => 0
  | .fail _ :: rest => readBudget rest + 1
  | .data bs :: rest => readBudget rest + bs.length + 1

/-- A buffer made by `make([]byte, cap)` after a read of `bs` into it. -/
def zeroFill (cap : Nat) (bs : Bytes) : Bytes :=
  bs ++ List.replicate (cap - bs.length) 0

/-- The builtin `copy(dst[off:], src)`, for `off ≤ len(dst)`. -/
def copyAt (dst : Bytes) (off : Nat) (src : Bytes) : Bytes :=
  dst.take off ++ src.take (dst.length - off) ++ dst.drop (off + src.length)

/-! ## Header codec (`type.go`) -/

/-- The method `MessageHeader.Marshal`: the encoder writes into a `bytes.Buffer` and does
not fail on this struct. -/
def Marshal (json : Codec) (m : MessageHeader) : Except Error Bytes :=
  .ok (json.encode m)

/-- The method `MessageHeader.Unmarshal`, on a zero-valued header. -/
def Unmarshal (json : Codec) (b : Bytes) : Except Error MessageHeader :=
  json.decode b

/-! ## Inbound stream handler (`p2p.go`) -/

/-- The function `SendErrorResponse`; the results of `Marshal` and `Write` are ignored. -/
def SendErrorResponse (json : Codec) (k : Consts) (statusCode : Int)
    (errorMessage : GoString) (session : GoString) (s : Stream) : Stream :=
  let header : MessageHeader :=
    { Typ := k.RES_TYPE, Size := 0, Session := session, Status := statusCode,
      ErrorMessage := errorMessage, IsBroadcast := false }
  let headerBytes := match Marshal json header with
    | .ok b => b
    | .error _ => []
  ((s.Write headerBytes).2).Close

/-- The function `SendSuccessResponse`. -/
def SendSuccessResponse (json : Codec) (k : Consts) (session : GoString) (s : Stream) :
    Stream :=
  let header : MessageHeader :=
    { Typ := k.RES_TYPE, Size := 0, Session := session, Status := SUSSCESS_CODE,
      ErrorMessage := [], IsBroadcast := false }
  let headerBytes := match Marshal json header with
    | .ok b => b
    | .error _ => []
  ((s.Write headerBytes).2).Close

/-- What a call of `HandleStream` does: it returns a message, returns an error, or does
not return (`make([]byte, n)` panics on a negative `n` and on an `n` it cannot
allocate). -/
inductive Handled where
  | message (m : Message)
  | failure (e : Error)
  | panic
deriving DecidableEq, Repr

set_option linter.unusedVariables false in
/-- The body loop of `HandleStream`:
`for readSize < msgHeader.Size { n, err := s.Read(buffer); ... }`. -/
def readBody (json : Codec) (k : Consts) (msgHeader : MessageHeader)
    (body : Bytes) (readSize : Nat) (s : Stream) : Handled × Stream :=
  if (readSize : Int) < msgHeader.Size then
    match hr : s.Read BUF with
    | (.error err, s1) =>
      (.failure err, SendErrorResponse json k k.INTERNAL_ERROR_CODE err msgHeader.Session s1)
    | (.ok chunk, s1) =>
      readBody json k msgHeader (copyAt body readSize chunk) (readSize + chunk.length) s1
  else
    (.message { Header := msgHeader, Body := body }, s)
termination_by readBudget s.reads
decreasing_by
  unfold Stream.Read at hr
  split at hr
  · simp at hr
  · simp at hr
  · rename_i bs rest h0
    split at hr
    · simp only [Prod.mk.injEq] at hr
      rw [← hr.2, h0]; simp only [readBudget]; omega
    · simp only [Prod.mk.injEq] at hr
      rw [← hr.2, h0]; simp only [readBudget, List.length_drop, BUF] at *; omega

/-- The function `HandleStream`. The header buffer is passed whole to `Unmarshal`, the
number of bytes read into it is ignored. The body is allocated by
`make([]byte, msgHeader.Size)` before the first body read. -/
def HandleStream (json : Codec) (k : Consts) (s : Stream) : Handled × Stream :=
  match s.Read BUF with
  | (.error err, s1) =>
    (.failure err, SendErrorResponse json k k.INTERNAL_ERROR_CODE err [] s1)
  | (.ok chunk, s1) =>
    match Unmarshal json (zeroFill BUF chunk) with
    | .error err =>
      (.failure err, SendErrorResponse json k k.INTERNAL_ERROR_CODE err [] s1)
    | .ok msgHeader =>
      if msgHeader.Size = 0 then
        (.message { Header := msgHeader, Body := [] }, s1)
      else if msgHeader.Size < 0 ∨ (k.maxAlloc : Int) < msgHeader.Size then
        (.panic, s1)
      else
        readBody json k msgHeader (List.replicate msgHeader.Size.toNat 0) 0 s1

/-! ## Transport and registry -/

/-- The struct `peer.AddrInfo`: a peer identity and its addresses. -/
structure AddrInfo where
  ID : GoString
  Addrs : List GoString
deriving DecidableEq, Repr

/-- What one `NewStream` call gives: a stream, or a failure. -/
inductive DialResult where
  | stream (s : Stream)
  | fail (e : Error)
deriving DecidableEq, Repr

/-- State of the libp2p host: `dials` is what the following `NewStream` calls give
(when it is used up every further call fails), `opened` logs the peer identity of
every `NewStream` call, `peerstore` logs every `Peerstore().AddAddrs` call. -/
structure Host where
  dials : List DialResult
  opened : List GoString
  peerstore : List (GoString × List GoString)
deriving DecidableEq, Repr

/-- The struct `Net` of `type.go`; `Peers` is the map `map[string]*peer.AddrInfo`
(a stored pointer may be nil). -/
structure Net where
  Host : Host
  Peers : List (GoString × Option AddrInfo)
deriving DecidableEq, Repr

/-- The error of a `NewStream` call on a host whose script is used up. -/
def dialFailed : Error := str "failed to dial"

/-- The call `net.Host.NewStream(context.Background(), id, "/")`. -/
def Host.NewStream (h : Host) (id : GoString) : Except Error Stream × Host :=
  match h.dials with
  | [] => (.error dialFailed, { h with opened := h.opened ++ [id] })
  | .fail e :: rest => (.error e, { h with dials := rest, opened := h.opened ++ [id] })
  | .stream s :: rest => (.ok s, { h with dials := rest, opened := h.opened ++ [id] })

/-- The map read `net.Peers[peerId]`: nil when the key is absent or a nil pointer is stored. -/
def Net.peer (net : Net) (peerId : GoString) : Option AddrInfo :=
  (net.Peers.lookup peerId).join

/-- The map write `net.Peers[key] = info`. -/
def mapSet (m : List (GoString × Option AddrInfo)) (key : GoString) (info : Option AddrInfo) :
    List (GoString × Option AddrInfo) :=
  if (m.lookup key).isSome then m.map (fun p => if p.1 = key then (key, info) else p)
  else m ++ [(key, info)]

/-! ## Request/response service and broadcaster (`p2p.go`) -/

/-- The method `Net.receiveResponse`. -/
def receiveResponse (json : Codec) (s : Stream) : Option Error × Stream :=
  match s.Read BUF with
  | (.error err, s1) => (some err, s1)
  | (.ok chunk, s1) =>
    match Unmarshal json (zeroFill BUF chunk) with
    | .error err => (some err, s1)
    | .ok msgHeader =>
      if msgHeader.Status ≠ SUSSCESS_CODE then (some msgHeader.ErrorMessage, s1)
      else (none, s1)

/-- What a call of `SendRequest` leaves behind: the error it returns (`none` is nil),
the host, and the final state of the stream it opened, if it opened one. -/
structure Sent where
  err : Option Error
  host : Host
  stream : Option Stream
deriving DecidableEq, Repr

/-- The header `SendRequest` builds from the caller's one. -/
def requestHeader (session : GoString) (message : Message) : MessageHeader :=
  { message.Header with
    Size := message.Body.length, Status := 0, ErrorMessage := [], Session := session }

/-- The method `Net.SendRequest` (`peerId` is the parameter `to`). -/
def SendRequest (json : Codec) (net : Net) (session : GoString) (peerId : GoString)
    (message : Message) : Sent :=
  match net.peer peerId with
  | none =>
    { err := some (str "peer %!d(string=" ++ peerId ++ str ") not found"),
      host := net.Host, stream := none }
  | some info =>
    match Marshal json (requestHeader session message) with
    | .error err =>
      { err := some (str "error marshalling message header: " ++ err),
        host := net.Host, stream := none }
    | .ok headerBytes =>
      match net.Host.NewStream info.ID with
      | (.error err, host) =>
        { err := some (str "Error creating stream: " ++ err), host := host, stream := none }
      | (.ok s, host) =>
        match s.Write headerBytes with
        | (some err, s1) =>
          { err := some (str "error sending message header: " ++ err),
            host := host, stream := some s1.Close }
        | (none, s1) =>
          match s1.Write message.Body with
          | (some err, s2) =>
            { err := some (str "error sending message body: " ++ err),
              host := host, stream := some s2.Close }
          | (none, s2) =>
            match receiveResponse json s2 with
            | (err, s3) => { err := err, host := host, stream := some s3.Close }

/-- The decimal digits of `n`, most significant first; `fuel` bounds their number. -/
def natDigits : Nat → Nat → Bytes
  | 0, _ => []
  | fuel + 1, n => if n < 10 then [48 + n] else natDigits fuel (n / 10) ++ [48 + n % 10]

/-- The decimal text of a natural number. -/
def decimalNat (n : Nat) : Bytes := natDigits (n + 1) n

/-- The decimal text of `%d` and of `strconv.AppendInt(_, _, 10)`. -/
def decimal : Int → GoString
  | .ofNat n => decimalNat n
  | .negSucc n => 45 :: decimalNat (n + 1)

/-- The text of `%v` for a slice of errors: `[e1 e2 ...]`. -/
def fmtErrs (errs : List Error) : GoString :=
  str "[" ++ List.intercalate (str " ") errs ++ str "]"

/-- One `SendRequest` call made by `Broadcast`: its arguments and what it gave. -/
structure Attempt where
  peerId : GoString
  message : Message
  sent : Sent
deriving DecidableEq, Repr

/-- The loop `for peerId, _ := range net.Peers` of `Broadcast`, over the entries still
to visit; `errs` is the slice of errors and `log` the calls made so far. -/
def broadcastLoop (json : Codec) (net : Net) (session : GoString) (message : Message) :
    List (GoString × Option AddrInfo) → Host → List Error → List Attempt →
      Host × List Error × List Attempt
  | [], host, errs, log => (host, errs, log)
  | (peerId, _) :: rest, host, errs, log =>
    let r := SendRequest json { net with Host := host } session peerId message
    let errs1 := match r.err with
      | some err => errs ++ [err]
      | none => errs
    broadcastLoop json net session message rest r.host errs1
      (log ++ [{ peerId := peerId, message := message, sent := r }])

/-- What a call of `Broadcast` leaves behind: the error it returns, the host, and the
`SendRequest` calls it made, in order. -/
structure Broadcasted where
  err : Option Error
  host : Host
  attempts : List Attempt
deriving DecidableEq, Repr

/-- The method `Net.Broadcast`; the registry is visited in the order of the list
`net.Peers`, which stands for the order the `range` over the map takes. -/
def Broadcast (json : Codec) (net : Net) (session : GoString) (message : Message) :
    Broadcasted :=
  let message1 : Message := { message with Header := { message.Header with IsBroadcast := true } }
  match broadcastLoop json net session message1 net.Peers net.Host [] [] with
  | (host, errs, log) =>
    if errs.length > 0 then
      { err := some (str "failed to broadcast message to " ++ decimal errs.length ++
          str " peers: " ++ fmtErrs errs),
        host := host, attempts := log }
    else
      { err := none, host := host, attempts := log }

/-! ## Connection manager (`p2p.go`) -/

/-- A parsed multiaddr (its binary form). -/
abbrev Multiaddr := Bytes

/-- The two address functions of the libp2p libraries: `multiaddr.NewMultiaddr` and
`peer.AddrInfoFromP2pAddr` on a non-nil multiaddr. On failure both return a nil value
with the error. -/
structure AddrLib where
  NewMultiaddr : GoString → Except Error Multiaddr
  AddrInfoFromP2pAddr : Multiaddr → Except Error AddrInfo

/-- The call `peer.AddrInfoFromP2pAddr(maddr)`: a nil multiaddr has no peer identity
(`ErrInvalidAddr`). -/
def AddrInfoFromP2pAddr (lib : AddrLib) : Option Multiaddr → Except Error AddrInfo
  | none => .error (str "invalid p2p multiaddr")
  | some m => lib.AddrInfoFromP2pAddr m

/-- What a call of `ConnectToPeer` does: it returns a peer identity, panics on the nil
pointer dereference `info.ID`, or never returns because every `NewStream` fails. -/
inductive Connected where
  | returned (id : GoString) (net : Net)
  | panic (net : Net)
  | retrying
deriving DecidableEq, Repr

/-- The retry loop `for { ... }` of `ConnectToPeer` for a non-nil `info`, over the
results of the `NewStream` calls to come. -/
def connectLoop (info : AddrInfo) (peers : List (GoString × Option AddrInfo)) :
    List DialResult → List GoString → List (GoString × List GoString) → List GoString →
      Connected × List GoString
  | [], _, _, log => (.retrying, log)
  | .fail err :: rest, opened, peerstore, log =>
    connectLoop info peers rest (opened ++ [info.ID]) (peerstore ++ [(info.ID, info.Addrs)])
      (log ++ [str "Error creating stream: " ++ err ++ str ". Retrying..."])
  | .stream _ :: rest, opened, peerstore, log =>
    (.returned info.ID
      { Host := { dials := rest, opened := opened ++ [info.ID],
                  peerstore := peerstore ++ [(info.ID, info.Addrs)] },
        Peers := mapSet peers info.ID (some info) },
     log ++ [str "Connected to peer " ++ info.ID])

/-- The method `Net.ConnectToPeer`, with the lines it logs. The text `info.ID.String()`
of a peer identity is the identity itself. -/
def ConnectToPeer (lib : AddrLib) (net : Net) (dest : GoString) : Connected × List GoString :=
  let (maddr, log1) : Option Multiaddr × List GoString :=
    match lib.NewMultiaddr dest with
    | .error err =>
      (none, [str "error creating multiaddr from " ++ dest ++ str ": " ++ err])
    | .ok m => (some m, [])
  let (info, log2) : Option AddrInfo × List GoString :=
    match AddrInfoFromP2pAddr lib maddr with
    | .error err => (none, log1 ++ [str "error extracting peer ID from multiaddr: " ++ err])
    | .ok i => (some i, log1)
  match info with
  | none => (.panic net, log2)
  | some i => connectLoop i net.Peers net.Host.dials net.Host.opened net.Host.peerstore log2

/-! ## A model of `encoding/json` on `MessageHeader`

`goJson` follows the documented behaviour of the library on this struct: the encoder
writes the fields in declaration order under their tags, integers in decimal, strings
quoted with the HTML-safe escaping and "coerced to valid UTF-8, replacing invalid bytes
with the Unicode replacement rune", and ends with a newline; the decoder reads the first
JSON value of the buffer and ignores what follows it (older releases of the encoder
write backspace and form feed as `\\u0008` and `\\u000c`; both forms decode to the same
byte). The decoder covers objects whose
members are strings, integers, booleans and null; the text of its errors is not that
of the library. -/

/-- The rune `utf8.RuneError` (U+FFFD). -/
def RuneError : Nat := 0xFFFD

/-- The UTF-8 encoding of U+FFFD. -/
def replacementBytes : Bytes := [0xEF, 0xBF, 0xBD]

/-- A UTF-8 continuation byte. -/
def isCont (b : Nat) : Bool := decide (0x80 ≤ b ∧ b ≤ 0xBF)

/-- The function `utf8.DecodeRune`: the first rune of the bytes and its width; an invalid encoding
gives `(RuneError, 1)`. -/
def decodeRune : Bytes → Nat × Nat
  | [] => (RuneError, 0)
  | b0 :: rest =>
    if b0 < 0x80 then (b0, 1)
    else if 0xC2 ≤ b0 ∧ b0 ≤ 0xDF then
      match rest with
      | b1 :: _ => if isCont b1 then ((b0 % 32) * 64 + b1 % 64, 2) else (RuneError, 1)
      | _ => (RuneError, 1)
    else if 0xE0 ≤ b0 ∧ b0 ≤ 0xEF then
      match rest with
      | b1 :: b2 :: _ =>
        if (if b0 = 0xE0 then 0xA0 else 0x80) ≤ b1 ∧ b1 ≤ (if b0 = 0xED then 0x9F else 0xBF)
            ∧ isCont b2 then
          ((b0 % 16) * 4096 + (b1 % 64) * 64 + b2 % 64, 3)
        else (RuneError, 1)
      | _ => (RuneError, 1)
    else if 0xF0 ≤ b0 ∧ b0 ≤ 0xF4 then
      match rest with
      | b1 :: b2 :: b3 :: _ =>
        if (if b0 = 0xF0 then 0x90 else 0x80) ≤ b1 ∧ b1 ≤ (if b0 = 0xF4 then 0x8F else 0xBF)
            ∧ isCont b2 ∧ isCont b3 then
          ((b0 % 8) * 262144 + (b1 % 64) * 4096 + (b2 % 64) * 64 + b3 % 64, 4)
        else (RuneError, 1)
      | _ => (RuneError, 1)
    else (RuneError, 1)

/-- The function `utf8.AppendRune`. -/
def encodeRune (r : Nat) : Bytes :=
  if r < 0x80 then [r]
  else if r < 0x800 then [0xC0 + r / 64, 0x80 + r % 64]
  else if (0xD800 ≤ r ∧ r ≤ 0xDFFF) ∨ 0x10FFFF < r then replacementBytes
  else if r < 0x10000 then [0xE0 + r / 4096, 0x80 + (r / 64) % 64, 0x80 + r % 64]
  else [0xF0 + r / 262144, 0x80 + (r / 4096) % 64, 0x80 + (r / 64) % 64, 0x80 + r % 64]

/-- A lower-case hexadecimal digit. -/
def hexDigit (n : Nat) : Nat := if n < 10 then 48 + n else 87 + n

/-- The encoder on one byte below 0x80: kept when HTML-safe, escaped otherwise. -/
def escapeByte (b : Nat) : Bytes :=
  if 0x20 ≤ b ∧ b ≠ 34 ∧ b ≠ 38 ∧ b ≠ 60 ∧ b ≠ 62 ∧ b ≠ 92 then [b]
  else if b = 92 ∨ b = 34 then [92, b]
  else if b = 8 then [92, 98]
  else if b = 12 then [92, 102]
  else if b = 10 then [92, 110]
  else if b = 13 then [92, 114]
  else if b = 9 then [92, 116]
  else [92, 117, 48, 48, hexDigit (b / 16), hexDigit (b % 16)]

/-- The encoder on the bytes of a string. After the first byte of a rune of several
bytes, `pending` counts its bytes still to pass and `keep` says whether they are copied
(a valid rune) or dropped (U+2028 and U+2029, written as an escape). An invalid byte is
written as the escape of U+FFFD. -/
def appendString : Nat → Bool → Bytes → Bytes
  | _, _, [] => []
  | pending + 1, keep, b :: rest =>
    if keep then b :: appendString pending keep rest else appendString pending keep rest
  | 0, _, b :: rest =>
    if b < 0x80 then escapeByte b ++ appendString 0 true rest
    else if (decodeRune (b :: rest)).2 ≤ 1 then
      [92, 117, 102, 102, 102, 100] ++ appendString 0 true rest
    else if (decodeRune (b :: rest)).1 = 0x2028 ∨ (decodeRune (b :: rest)).1 = 0x2029 then
      [92, 117, 50, 48, 50, hexDigit ((decodeRune (b :: rest)).1 % 16)] ++
        appendString ((decodeRune (b :: rest)).2 - 1) false rest
    else b :: appendString ((decodeRune (b :: rest)).2 - 1) true rest

/-- A JSON string literal. -/
def quote (s : GoString) : Bytes := [34] ++ appendString 0 true s ++ [34]

/-- One member of an object: the quoted key, a colon and the value. -/
def member (key : GoString) (value : Bytes) : Bytes := quote key ++ [58] ++ value

/-- The encoder of `goJson`:
`\x7b"type":T,"size":S,"session":"...","status":N,"error_message":"...","is_broadcast":B\x7d`
and a newline. -/
def goEncode (m : MessageHeader) : Bytes :=
  [123] ++ member (str "type") (decimal m.Typ) ++
  [44] ++ member (str "size") (decimal m.Size) ++
  [44] ++ member (str "session") (quote m.Session) ++
  [44] ++ member (str "status") (decimal m.Status) ++
  [44] ++ member (str "error_message") (quote m.ErrorMessage) ++
  [44] ++ member (str "is_broadcast") (if m.IsBroadcast then str "true" else str "false") ++
  [125, 10]

/-- JSON white space. -/
def isSpace (b : Nat) : Bool := decide (b = 32 ∨ b = 9 ∨ b = 10 ∨ b = 13)

/-- The input after its leading white space. -/
def skipSpace : Bytes → Bytes
  | [] => []
  | b :: rest => if isSpace b then skipSpace rest else b :: rest

/-- The value of a hexadecimal digit. -/
def hexVal (b : Nat) : Option Nat :=
  if 48 ≤ b ∧ b ≤ 57 then some (b - 48)
  else if 97 ≤ b ∧ b ≤ 102 then some (b - 87)
  else if 65 ≤ b ∧ b ≤ 70 then some (b - 55)
  else none

/-- The four hexadecimal digits after a backslash and `u`. -/
def getu4 : Bytes → Option (Nat × Bytes)
  | a :: b :: c :: d :: rest =>
    match hexVal a, hexVal b, hexVal c, hexVal d with
    | some x, some y, some z, some w => some (((x * 16 + y) * 16 + z) * 16 + w, rest)
    | _, _, _, _ => none
  | _ => none

/-- The byte a one-letter escape stands for. -/
def unescape (e : Nat) : Option Nat :=
  if e = 34 ∨ e = 92 ∨ e = 47 then some e
  else if e = 98 then some 8
  else if e = 102 then some 12
  else if e = 110 then some 10
  else if e = 114 then some 13
  else if e = 116 then some 9
  else none

/-- A string literal after its opening quote: the string it denotes and the input
after the closing quote. -/
def parseString : Nat → Bytes → Option (Bytes × Bytes)
  | 0, _ => none
  | _ + 1, [] => none
  | fuel + 1, b :: rest =>
    if b = 34 then some ([], rest)
    else if b = 92 then
      match rest with
      | [] => none
      | e :: rest1 =>
        if e = 117 then
          match getu4 rest1 with
          | none => none
          | some (u, rest2) =>
            if 0xD800 ≤ u ∧ u ≤ 0xDFFF then
              match rest2 with
              | 92 :: 117 :: rest3 =>
                match getu4 rest3 with
                | some (u2, rest4) =>
                  if u < 0xDC00 ∧ 0xDC00 ≤ u2 ∧ u2 ≤ 0xDFFF then
                    (parseString fuel rest4).map fun r =>
                      (encodeRune ((u - 0xD800) * 1024 + (u2 - 0xDC00) + 0x10000) ++ r.1, r.2)
                  else (parseString fuel rest2).map fun r => (replacementBytes ++ r.1, r.2)
                | none => (parseString fuel rest2).map fun r => (replacementBytes ++ r.1, r.2)
              | _ => (parseString fuel rest2).map fun r => (replacementBytes ++ r.1, r.2)
            else (parseString fuel rest2).map fun r => (encodeRune u ++ r.1, r.2)
        else
          match unescape e with
          | none => none
          | some c => (parseString fuel rest1).map fun r => (c :: r.1, r.2)
    else if b < 32 then none
    else if b < 128 then (parseString fuel rest).map fun r => (b :: r.1, r.2)
    else if (decodeRune (b :: rest)).2 ≤ 1 then
      (parseString fuel rest).map fun r => (replacementBytes ++ r.1, r.2)
    else
      (parseString fuel (rest.drop ((decodeRune (b :: rest)).2 - 1))).map fun r =>
        ((b :: rest).take (decodeRune (b :: rest)).2 ++ r.1, r.2)

/-- A decimal digit. -/
def isDigit (b : Nat) : Bool := decide (48 ≤ b ∧ b ≤ 57)

/-- The number the digits denote. -/
def digitsValue (ds : Bytes) : Nat := ds.foldl (fun acc d => acc * 10 + (d - 48)) 0

/-- An integer literal that fits an `int`: no leading zero, no fraction, no exponent. -/
def parseInt (bs : Bytes) : Option (Int × Bytes) :=
  let neg : Bool := bs.head? = some 45
  let bs1 := if neg then bs.drop 1 else bs
  let ds := bs1.takeWhile isDigit
  let rest := bs1.dropWhile isDigit
  if ds = [] then none
  else if ds.head? = some 48 ∧ 1 < ds.length then none
  else if rest.head? = some 46 ∨ rest.head? = some 101 ∨ rest.head? = some 69 then none
  else if neg then
    if digitsValue ds ≤ 2 ^ 63 then some (- (digitsValue ds : Int), rest) else none
  else
    if digitsValue ds < 2 ^ 63 then some ((digitsValue ds : Int), rest) else none

/-- The JSON values the decoder covers. -/
inductive JVal where
  | text (s : Bytes)
  | int (i : Int)
  | bool (b : Bool)
  | null
deriving DecidableEq, Repr

/-- One value and the input after it. -/
def parseValue (bs : Bytes) : Option (JVal × Bytes) :=
  if bs.head? = some 34 then
    (parseString bs.length (bs.drop 1)).map fun r => (.text r.1, r.2)
  else if bs.take 4 = str "true" then some (.bool true, bs.drop 4)
  else if bs.take 5 = str "false" then some (.bool false, bs.drop 5)
  else if bs.take 4 = str "null" then some (.null, bs.drop 4)
  else (parseInt bs).map fun r => (.int r.1, r.2)

/-- An ASCII letter in lower case. -/
def toLower (b : Nat) : Nat := if 65 ≤ b ∧ b ≤ 90 then b + 32 else b

/-- The header after storing the value of one member: the key selects the field by its
tag, letter case ignored; null stores nothing; an unknown key is skipped; a value of the
wrong kind is an error. -/
def setField (m : MessageHeader) (key : Bytes) (v : JVal) : Option MessageHeader :=
  let tag := key.map toLower
  match v with
  | .null => some m
  | .int i =>
    if tag = str "type" then some { m with Typ := i }
    else if tag = str "size" then some { m with Size := i }
    else if tag = str "status" then some { m with Status := i }
    else if tag = str "session" ∨ tag = str "error_message" ∨ tag = str "is_broadcast" then none
    else some m
  | .text t =>
    if tag = str "session" then some { m with Session := t }
    else if tag = str "error_message" then some { m with ErrorMessage := t }
    else if tag = str "type" ∨ tag = str "size" ∨ tag = str "status"
        ∨ tag = str "is_broadcast" then none
    else some m
  | .bool b =>
    if tag = str "is_broadcast" then some { m with IsBroadcast := b }
    else if tag = str "type" ∨ tag = str "size" ∨ tag = str "status"
        ∨ tag = str "session" ∨ tag = str "error_message" then none
    else some m

/-- The members of an object, from the first key to the closing brace. -/
def parseMembers : Nat → MessageHeader → Bytes → Option MessageHeader
  | 0, _, _ => none
  | fuel + 1, m, bs =>
    match skipSpace bs with
    | 34 :: rest =>
      match parseString (rest.length + 1) rest with
      | none => none
      | some (key, rest1) =>
        match skipSpace rest1 with
        | 58 :: rest2 =>
          match parseValue (skipSpace rest2) with
          | none => none
          | some (v, rest3) =>
            match setField m key v with
            | none => none
            | some m1 =>
              match skipSpace rest3 with
              | 44 :: rest4 => parseMembers fuel m1 rest4
              | 125 :: _ => some m1
              | _ => none
        | _ => none
    | _ => none

/-- The zero value of `MessageHeader` (`var msgHeader MessageHeader`). -/
def zeroHeader : MessageHeader :=
  { Typ := 0, Size := 0, Session := [], Status := 0, ErrorMessage := [], IsBroadcast := false }

/-- The decoder of `goJson`: the first value of the buffer, decoded into a zero header. -/
def goDecode (b : Bytes) : Except Error MessageHeader :=
  match skipSpace b with
  | [] => .error EOF
  | 110 :: 117 :: 108 :: 108 :: _ => .ok zeroHeader
  | 123 :: rest =>
    match skipSpace rest with
    | 125 :: _ => .ok zeroHeader
    | _ =>
      match parseMembers b.length zeroHeader rest with
      | some m => .ok m
      | none => .error (str "json: cannot decode the header")
  | _ => .error (str "json: cannot decode the header")

/-- The model of `encoding/json`. -/
def goJson : Codec := { encode := goEncode, decode := goDecode }

/-- The failure the next `Read` call reports, if it reports one: the scripted failure,
or `EOF` at the end of the stream. -/
def nextReadError : List ReadResult → Option Error
  | [] => some EOF
  | .fail e :: _ => some e
  | .data _ :: _ => none

/-- The first `n` `Write` calls on a stream with the script `ws` all succeed. -/
def writesSucceed : Nat → List (Option Error) → Bool
  | 0, _ => true
  | _ + 1, [] => true
  | n + 1, none :: ws => writesSucceed n ws
  | _ + 1, some _ :: _ => false

/-- The calls `as` are successive `SendRequest` calls of `net` starting from the host
state `host`: each is the outcome of `SendRequest` on the host the previous one left. -/
def attemptsFrom (json : Codec) (net : Net) (session : GoString) : Host → List Attempt → Prop
  | _, [] => True
  | host, a :: as =>
    a.sent = SendRequest json { net with Host := host } session a.peerId a.message ∧
      attemptsFrom json net session a.sent.host as

/-- The errors of the failed calls, in order. -/
def failuresOf (as : List Attempt) : List Error := as.filterMap fun a => a.sent.err

/-- The bytes are valid UTF-8: every rune `utf8.DecodeRune` meets from the start on is
one byte below 0x80 or a well-formed sequence of two to four bytes; `pending` counts the
bytes of the current rune still to pass. -/
def validUTF8 : Nat → Bytes → Bool
  | _, [] => true
  | pending + 1, _ :: rest => validUTF8 pending rest
  | 0, b :: rest =>
    if b < 0x80 then validUTF8 0 rest
    else if (decodeRune (b :: rest)).2 ≤ 1 then false
    else validUTF8 ((decodeRune (b :: rest)).2 - 1) rest

/-- The integer fits the type `int` of a 64-bit platform. -/
def fitsInt (i : Int) : Bool := decide (-(2 ^ 63 : Int) ≤ i ∧ i < 2 ^ 63)

/-- A header a Go program can hold and the codec carries unchanged: integers within
`int`, strings valid UTF-8. -/
def wellFormed (h : MessageHeader) : Bool :=
  fitsInt h.Typ && fitsInt h.Size && fitsInt h.Status &&
    validUTF8 0 h.Session && validUTF8 0 h.ErrorMessage

/-! ## Concrete inputs -/

deriving instance DecidableEq for Except

/-- Values for the constants, used to evaluate the operations; the allocation limit is
that of the runtime on linux/amd64. -/
def exConsts : Consts := { RES_TYPE := 1, INTERNAL_ERROR_CODE := 500, maxAlloc := 2 ^ 48 }

/-- The header of the concrete scenario of the specification. -/
def exHeader : MessageHeader :=
  { Typ := 0, Size := 5, Session := str "abc", Status := 0, ErrorMessage := [],
    IsBroadcast := false }

/-- The body of the concrete scenario. -/
def exBody : Bytes := str "hello"

/-- A fresh stream on which the given reads will arrive. -/
def streamOf (reads : List ReadResult) : Stream :=
  { reads := reads, writes := [], written := [], closed := false }

/-- A peer identity. -/
def exPeer : GoString := str "QmPeerA"

/-- The response header of a peer that accepted the request. -/
def exOkResponse : MessageHeader :=
  { Typ := 1, Size := 0, Session := str "abc", Status := 0, ErrorMessage := [],
    IsBroadcast := false }

/-- The response header of the concrete scenario: status 500 with the text "boom". -/
def exBoomResponse : MessageHeader :=
  { Typ := 1, Size := 0, Session := str "abc", Status := 500, ErrorMessage := str "boom",
    IsBroadcast := false }

/-- A node that knows `exPeer`; its next `NewStream` call gives a stream on which the
given response arrives. -/
def exNet (response : MessageHeader) : Net :=
  { Host := { dials := [.stream (streamOf [.data (goEncode response)])], opened := [],
              peerstore := [] },
    Peers := [(exPeer, some { ID := exPeer, Addrs := [str "/ip4/127.0.0.1/tcp/4001"] })] }

/-- The request of the concrete scenario, with stale values in the fields `SendRequest`
sets. -/
def exMessage : Message :=
  { Header := { Typ := 0, Size := 99, Session := str "stale", Status := 7,
                ErrorMessage := str "old", IsBroadcast := false },
    Body := exBody }

/-- The text of an address cut at its slashes. -/
def splitSlash : Bytes → List Bytes
  | [] => [[]]
  | b :: rest =>
    if b = 47 then [] :: splitSlash rest
    else match splitSlash rest with
      | [] => [[b]]
      | seg :: segs => (b :: seg) :: segs

/-- The component that follows `p2p` in a list of components. -/
def peerComponent : List Bytes → Option GoString
  | a :: b :: rest => if a = str "p2p" then some b else peerComponent (b :: rest)
  | _ => none

/-- A small model of the address functions: an address must begin with a slash, and its
peer identity is the component after `p2p`. -/
def exLib : AddrLib :=
  { NewMultiaddr := fun d =>
      if d.head? = some 47 then .ok d
      else .error (str "failed to parse multiaddr: must begin with /"),
    AddrInfoFromP2pAddr := fun m =>
      match peerComponent (splitSlash m) with
      | some id => .ok { ID := id, Addrs := [m] }
      | none => .error (str "invalid p2p multiaddr") }

/-- A header that announces a body one byte longer than the allocation limit of the
runtime on linux/amd64. -/
def exHugeHeader : MessageHeader :=
  { Typ := 0, Size := 281474976710657, Session := str "abc", Status := 0,
    ErrorMessage := [], IsBroadcast := false }

/-- A header that announces a body of the largest `int`. -/
def exMaxHeader : MessageHeader :=
  { Typ := 0, Size := 9223372036854775807, Session := str "abc", Status := 0,
    ErrorMessage := [], IsBroadcast := false }

/-- A second peer identity. -/
def exPeerB : GoString := str "QmPeerB"

/-- A node that knows `exPeer` and `exPeerB`; its first `NewStream` call fails and its
second one gives a stream on which an accepting response arrives. -/
def exNetTwo : Net :=
  { Host := { dials := [.fail (str "no route"),
                        .stream (streamOf [.data (goEncode exOkResponse)])],
              opened := [], peerstore := [] },
    Peers := [(exPeer, some { ID := exPeer, Addrs := [] }),
              (exPeerB, some { ID := exPeerB, Addrs := [] })] }

/-! ## Lemmas on streams and on the body loop -/

theorem read_nil (s : Stream) (cap : Nat) (h : s.reads = []) :
    s.Read cap = (.error EOF, s) := by
  simp [Stream.Read, h]

theorem read_fail (s : Stream) (cap : Nat) (e : Error) (rest : List ReadResult)
    (h : s.reads = .fail e :: rest) :
    s.Read cap = (.error e, { s with reads := rest }) := by
  simp [Stream.Read, h]

theorem read_data_le (s : Stream) (cap : Nat) (c : Bytes) (rest : List ReadResult)
    (h : s.reads = .data c :: rest) (hc : c.length ≤ cap) :
    s.Read cap = (.ok c, { s with reads := rest }) := by
  simp [Stream.Read, h, hc]

theorem read_data_gt (s : Stream) (cap : Nat) (c : Bytes) (rest : List ReadResult)
    (h : s.reads = .data c :: rest) (hc : cap < c.length) :
    s.Read cap = (.ok (c.take cap), { s with reads := .data (c.drop cap) :: rest }) := by
  simp [Stream.Read, h, Nat.not_le.mpr hc]

theorem copyAt_append (acc z p : Bytes) (hp : p.length ≤ z.length) :
    copyAt (acc ++ z) acc.length p = (acc ++ p) ++ z.drop p.length := by
  unfold copyAt
  have h1 : (acc ++ z).take acc.length = acc := by simp
  have h2 : (acc ++ z).length - acc.length = z.length := by simp
  have h3 : p.take z.length = p := List.take_of_length_le hp
  have h4 : (acc ++ z).drop (acc.length + p.length) = z.drop p.length := by
    rw [List.drop_append]
  rw [h1, h2, h3, h4]

theorem readBody_done (json : Codec) (k : Consts) (h : MessageHeader) (body : Bytes)
    (readSize : Nat) (s : Stream) (hge : ¬ (readSize : Int) < h.Size) :
    readBody json k h body readSize s = (.message { Header := h, Body := body }, s) := by
  rw [readBody, if_neg hge]

theorem readBody_ok (json : Codec) (k : Consts) (h : MessageHeader) (body : Bytes)
    (readSize : Nat) (s s1 : Stream) (chunk : Bytes) (hlt : (readSize : Int) < h.Size)
    (hread : s.Read BUF = (.ok chunk, s1)) :
    readBody json k h body readSize s =
      readBody json k h (copyAt body readSize chunk) (readSize + chunk.length) s1 := by
  rw [readBody, if_pos hlt]
  split
  · rename_i heq; rw [hread] at heq; simp at heq
  · rename_i heq; rw [hread] at heq
    simp only [Prod.mk.injEq, Except.ok.injEq] at heq
    rw [← heq.1, ← heq.2]

theorem readBody_err (json : Codec) (k : Consts) (h : MessageHeader) (body : Bytes)
    (readSize : Nat) (s s1 : Stream) (e : Error) (hlt : (readSize : Int) < h.Size)
    (hread : s.Read BUF = (.error e, s1)) :
    readBody json k h body readSize s =
      (.failure e, SendErrorResponse json k k.INTERNAL_ERROR_CODE e h.Session s1) := by
  rw [readBody, if_pos hlt]
  split
  · rename_i heq; rw [hread] at heq
    simp only [Prod.mk.injEq, Except.error.injEq] at heq
    rw [← heq.1, ← heq.2]
  · rename_i heq; rw [hread] at heq; simp at heq

theorem readBudget_pos_of_cons (c : Bytes) (cs : List Bytes) :
    0 < readBudget ((c :: cs).map ReadResult.data) := by
  simp [readBudget]

/-- The body loop on a stream that delivers the missing bytes `z` of the body in the
chunks `chunks`, of any sizes: the body is completed with the chunks in order, and
nothing is written or closed. -/
theorem readBody_collect (json : Codec) (k : Consts) (h : MessageHeader) (n : Nat) :
    ∀ (chunks : List Bytes) (acc z : Bytes) (s : Stream) (rest : List ReadResult),
      readBudget (chunks.map ReadResult.data) ≤ n →
      s.reads = chunks.map ReadResult.data ++ rest →
      z.length = chunks.flatten.length →
      h.Size = (acc.length : Int) + z.length →
      (readBody json k h (acc ++ z) acc.length s).1
          = .message { Header := h, Body := acc ++ chunks.flatten } ∧
        (readBody json k h (acc ++ z) acc.length s).2.written = s.written ∧
        (readBody json k h (acc ++ z) acc.length s).2.closed = s.closed := by
  induction n with
  | zero =>
    intro chunks acc z s rest hb hr hz hs
    cases chunks with
    | nil =>
      simp only [List.flatten_nil, List.length_nil, List.length_eq_zero] at hz
      subst hz
      have hge : ¬ (acc.length : Int) < h.Size := by simp [hs]
      rw [readBody_done json k h _ _ s hge]; simp
    | cons c cs =>
      have := readBudget_pos_of_cons c cs
      omega
  | succ n ih =>
    intro chunks acc z s rest hb hr hz hs
    cases chunks with
    | nil =>
      simp only [List.flatten_nil, List.length_nil, List.length_eq_zero] at hz
      subst hz
      have hge : ¬ (acc.length : Int) < h.Size := by simp [hs]
      rw [readBody_done json k h _ _ s hge]; simp
    | cons c cs =>
      by_cases hz0 : z.length = 0
      · have hzn : z = [] := List.length_eq_zero.mp hz0
        have hj : (c :: cs).flatten = [] := by
          apply List.length_eq_zero.mp; rw [← hz]; exact hz0
        have hge : ¬ (acc.length : Int) < h.Size := by simp [hs, hz0]
        rw [readBody_done json k h _ _ s hge, hj, hzn]; simp
      · have hlt : (acc.length : Int) < h.Size := by rw [hs]; omega
        simp only [List.map_cons, List.cons_append] at hr
        simp only [List.flatten_cons, List.length_append] at hz
        simp only [List.map_cons, readBudget] at hb
        by_cases hc : c.length ≤ BUF
        · rw [readBody_ok json k h _ _ s _ c hlt (read_data_le s BUF c _ hr hc)]
          rw [copyAt_append acc z c (by omega)]
          have hlen : acc.length + c.length = (acc ++ c).length := by simp
          rw [hlen]
          have := ih cs (acc ++ c) (z.drop c.length) { s with reads := cs.map ReadResult.data ++ rest }
            rest (by omega) rfl (by simp only [List.length_drop]; omega)
            (by simp only [List.length_append, List.length_drop]; rw [hs]; push_cast; omega)
          simpa [List.append_assoc] using this
        · have hc1 : BUF < c.length := Nat.not_le.mp hc
          rw [readBody_ok json k h _ _ s _ (c.take BUF) hlt (read_data_gt s BUF c _ hr hc1)]
          have htl : (c.take BUF).length = BUF := by
            rw [List.length_take]; omega
          rw [copyAt_append acc z (c.take BUF) (by omega)]
          have hlen : acc.length + (c.take BUF).length = (acc ++ c.take BUF).length := by simp
          rw [hlen]
          have := ih (c.drop BUF :: cs) (acc ++ c.take BUF) (z.drop (c.take BUF).length)
            { s with reads := ReadResult.data (c.drop BUF) :: (cs.map ReadResult.data ++ rest) }
            rest
            (by
              have hB : BUF = 1028 := rfl
              simp only [List.map_cons, readBudget, List.length_drop]; omega)
            (by simp)
            (by simp only [List.length_drop, List.flatten_cons, List.length_append, htl]; omega)
            (by simp only [List.length_append, List.length_drop, htl]; rw [hs]; push_cast; omega)
          have hjoin : acc ++ c.take BUF ++ (c.drop BUF :: cs).flatten = acc ++ (c :: cs).flatten := by
            simp only [List.flatten_cons, List.append_assoc]
            rw [← List.append_assoc (c.take BUF), List.take_append_drop]
          rw [hjoin] at this
          simpa using this

theorem sendErrorResponse_written (json : Codec) (k : Consts) (statusCode : Int)
    (errorMessage session : GoString) (s : Stream) :
    (SendErrorResponse json k statusCode errorMessage session s).written
        = s.written ++ [json.encode
            { Typ := k.RES_TYPE, Size := 0, Session := session, Status := statusCode,
              ErrorMessage := errorMessage, IsBroadcast := false }] ∧
      (SendErrorResponse json k statusCode errorMessage session s).closed = true := by
  unfold SendErrorResponse Marshal Stream.Write Stream.Close
  cases s.writes <;> simp

theorem readBody_fails_now (json : Codec) (k : Consts) (h : MessageHeader) (body : Bytes)
    (readSize : Nat) (s : Stream) (e : Error) (hlt : (readSize : Int) < h.Size)
    (he : nextReadError s.reads = some e) :
    ∃ s1, readBody json k h body readSize s
        = (.failure e, SendErrorResponse json k k.INTERNAL_ERROR_CODE e h.Session s1) ∧
      s1.written = s.written ∧ s1.closed = s.closed := by
  cases hr : s.reads with
  | nil =>
    rw [hr] at he
    simp only [nextReadError, Option.some.injEq] at he
    subst he
    exact ⟨s, readBody_err json k h body readSize s s EOF hlt (read_nil s BUF hr), rfl, rfl⟩
  | cons r rest =>
    rw [hr] at he
    cases r with
    | data c => simp [nextReadError] at he
    | fail e1 =>
      simp only [nextReadError, Option.some.injEq] at he
      subst he
      exact ⟨{ s with reads := rest },
        readBody_err json k h body readSize s _ e1 hlt (read_fail s BUF e1 rest hr), rfl, rfl⟩

/-- The body loop on a stream that delivers fewer bytes than the body still misses and
then fails: the loop stops at that failure and sends the error response. -/
theorem readBody_fails (json : Codec) (k : Consts) (h : MessageHeader) (n : Nat) :
    ∀ (chunks : List Bytes) (body : Bytes) (readSize : Nat) (s : Stream)
      (tail : List ReadResult) (e : Error),
      readBudget (chunks.map ReadResult.data) ≤ n →
      s.reads = chunks.map ReadResult.data ++ tail →
      (readSize : Int) + chunks.flatten.length < h.Size →
      nextReadError tail = some e →
      ∃ s1, readBody json k h body readSize s
          = (.failure e, SendErrorResponse json k k.INTERNAL_ERROR_CODE e h.Session s1) ∧
        s1.written = s.written ∧ s1.closed = s.closed := by
  induction n with
  | zero =>
    intro chunks body readSize s tail e hb hr hlt he
    cases chunks with
    | nil =>
      simp only [List.map_nil, List.nil_append] at hr
      simp only [List.flatten_nil, List.length_nil, Nat.cast_zero, add_zero] at hlt
      exact readBody_fails_now json k h body readSize s e hlt (by rw [hr]; exact he)
    | cons c cs =>
      have := readBudget_pos_of_cons c cs
      omega
  | succ n ih =>
    intro chunks body readSize s tail e hb hr hlt he
    cases chunks with
    | nil =>
      simp only [List.map_nil, List.nil_append] at hr
      simp only [List.flatten_nil, List.length_nil, Nat.cast_zero, add_zero] at hlt
      exact readBody_fails_now json k h body readSize s e hlt (by rw [hr]; exact he)
    | cons c cs =>
      simp only [List.map_cons, List.cons_append] at hr
      simp only [List.flatten_cons, List.length_append, Nat.cast_add] at hlt
      simp only [List.map_cons, readBudget] at hb
      have hlt0 : (readSize : Int) < h.Size := by omega
      have hB : BUF = 1028 := rfl
      by_cases hc : c.length ≤ BUF
      · rw [readBody_ok json k h _ _ s _ c hlt0 (read_data_le s BUF c _ hr hc)]
        obtain ⟨s1, h1, h2, h3⟩ := ih cs (copyAt body readSize c) (readSize + c.length)
          { s with reads := cs.map ReadResult.data ++ tail } tail e (by omega) rfl
          (by push_cast; omega) he
        exact ⟨s1, h1, h2, h3⟩
      · have hc1 : BUF < c.length := Nat.not_le.mp hc
        rw [readBody_ok json k h _ _ s _ (c.take BUF) hlt0 (read_data_gt s BUF c _ hr hc1)]
        have htl : (c.take BUF).length = BUF := by
          rw [List.length_take]; omega
        obtain ⟨s1, h1, h2, h3⟩ := ih (c.drop BUF :: cs) (copyAt body readSize (c.take BUF))
          (readSize + (c.take BUF).length)
          { s with reads := ReadResult.data (c.drop BUF) :: (cs.map ReadResult.data ++ tail) }
          tail e
          (by simp only [List.map_cons, readBudget, List.length_drop]; omega)
          (by simp)
          (by
            simp only [List.flatten_cons, List.length_append, List.length_drop, htl]
            push_cast
            omega)
          he
        exact ⟨s1, h1, h2, h3⟩

theorem handleStream_header (json : Codec) (k : Consts) (s : Stream) (hdr : Bytes)
    (rest : List ReadResult) (mh : MessageHeader)
    (hreads : s.reads = .data hdr :: rest) (hfit : hdr.length ≤ BUF)
    (hdec : Unmarshal json (zeroFill BUF hdr) = .ok mh) (hpos : 0 < mh.Size)
    (halloc : mh.Size ≤ k.maxAlloc) :
    HandleStream json k s
      = readBody json k mh (List.replicate mh.Size.toNat 0) 0 { s with reads := rest } := by
  unfold HandleStream
  rw [read_data_le s BUF hdr rest hreads hfit]
  simp only [hdec]
  rw [if_neg (by omega), if_neg (by omega)]

/-- The function `HandleStream` on a stream whose first read gives a header that decodes and whose
following reads give exactly the announced number of body bytes, which `make` can
allocate, in chunks of any sizes: the message is returned with the chunks in order as its body. -/
theorem handleStream_collect (json : Codec) (k : Consts) (s : Stream) (hdr : Bytes)
    (chunks : List Bytes) (rest : List ReadResult) (mh : MessageHeader)
    (hreads : s.reads = .data hdr :: (chunks.map ReadResult.data ++ rest))
    (hfit : hdr.length ≤ BUF)
    (hdec : Unmarshal json (zeroFill BUF hdr) = .ok mh)
    (hlen : (chunks.flatten.length : Int) = mh.Size)
    (halloc : mh.Size ≤ k.maxAlloc) :
    (HandleStream json k s).1 = .message { Header := mh, Body := chunks.flatten } ∧
      (HandleStream json k s).2.written = s.written ∧
      (HandleStream json k s).2.closed = s.closed := by
  by_cases h0 : mh.Size = 0
  · have hnil : chunks.flatten = [] := by
      apply List.length_eq_zero.mp
      rw [h0] at hlen; exact_mod_cast hlen
    unfold HandleStream
    rw [read_data_le s BUF hdr _ hreads hfit]
    simp only [hdec, h0, if_true, hnil, and_self]
  · have hpos : 0 < mh.Size := by omega
    rw [handleStream_header json k s hdr _ mh hreads hfit hdec hpos halloc]
    have := readBody_collect json k mh (readBudget (chunks.map ReadResult.data)) chunks []
      (List.replicate mh.Size.toNat 0)
      { s with reads := chunks.map ReadResult.data ++ rest } rest (le_refl _) rfl
      (by simp only [List.length_replicate]; omega)
      (by simp only [List.length_nil, List.length_replicate]; omega)
    simpa using this

theorem write_reads (s : Stream) (p : Bytes) : (s.Write p).2.reads = s.reads := by
  unfold Stream.Write; cases s.writes <;> rfl

theorem write_written (s : Stream) (p : Bytes) : (s.Write p).2.written = s.written ++ [p] := by
  unfold Stream.Write; cases s.writes <;> rfl

theorem write_ok_of_succeed (n : Nat) (s : Stream) (p : Bytes)
    (h : writesSucceed (n + 1) s.writes = true) :
    (s.Write p).1 = none ∧ writesSucceed n (s.Write p).2.writes = true := by
  unfold Stream.Write
  cases hw : s.writes with
  | nil => cases n <;> simp [writesSucceed]
  | cons r ws =>
    rw [hw] at h
    cases r with
    | none => simpa [writesSucceed] using h
    | some e => simp [writesSucceed] at h

/-- The method `SendRequest` to a registered peer whose stream opens, spelled out. -/
theorem sendRequest_opened (json : Codec) (net : Net) (session peerId : GoString)
    (message : Message) (info : AddrInfo) (s : Stream) (host : Host)
    (hpeer : net.peer peerId = some info)
    (hdial : net.Host.NewStream info.ID = (.ok s, host)) :
    SendRequest json net session peerId message =
      match s.Write (json.encode (requestHeader session message)) with
      | (some err, s1) =>
        { err := some (str "error sending message header: " ++ err),
          host := host, stream := some s1.Close }
      | (none, s1) =>
        match s1.Write message.Body with
        | (some err, s2) =>
          { err := some (str "error sending message body: " ++ err),
            host := host, stream := some s2.Close }
        | (none, s2) =>
          match receiveResponse json s2 with
          | (err, s3) => { err := err, host := host, stream := some s3.Close } := by
  unfold SendRequest
  simp only [hpeer, Marshal, hdial]

theorem receiveResponse_decoded (json : Codec) (s : Stream) (resp : Bytes)
    (rest : List ReadResult) (rh : MessageHeader)
    (hreads : s.reads = .data resp :: rest) (hfit : resp.length ≤ BUF)
    (hdec : Unmarshal json (zeroFill BUF resp) = .ok rh) :
    (receiveResponse json s).1
      = if rh.Status ≠ SUSSCESS_CODE then some rh.ErrorMessage else none := by
  unfold receiveResponse
  rw [read_data_le s BUF resp rest hreads hfit]
  simp only [hdec]
  split <;> rfl

theorem read_written (s : Stream) (cap : Nat) : (s.Read cap).2.written = s.written := by
  unfold Stream.Read
  repeat' split
  all_goals rfl

theorem receiveResponse_written (json : Codec) (s : Stream) :
    (receiveResponse json s).2.written = s.written := by
  have hr := read_written s BUF
  unfold receiveResponse
  rcases h : s.Read BUF with ⟨r, s1⟩
  rw [h] at hr
  simp only at hr
  cases r with
  | error e => simpa using hr
  | ok chunk =>
    simp only
    cases Unmarshal json (zeroFill BUF chunk) with
    | error e => simpa using hr
    | ok mh =>
      simp only
      split <;> simpa using hr

theorem head_drop_append (l t : List Bytes) (a : Bytes) :
    ((l ++ a :: t).drop l.length).head? = some a := by
  rw [List.drop_left]; rfl

/-- The first `Write` call of `SendRequest` on the stream it opened carries the whole
encoding of the request header. -/
theorem sendRequest_first_write (json : Codec) (net : Net) (session peerId : GoString)
    (message : Message) (info : AddrInfo) (s : Stream) (host : Host)
    (hpeer : net.peer peerId = some info)
    (hdial : net.Host.NewStream info.ID = (.ok s, host)) :
    (SendRequest json net session peerId message).stream.map
        (fun st => (st.written.drop s.written.length).head?)
      = some (some (json.encode (requestHeader session message))) := by
  rw [sendRequest_opened json net session peerId message info s host hpeer hdial]
  have hw1 := write_written s (json.encode (requestHeader session message))
  rcases h1 : s.Write (json.encode (requestHeader session message)) with ⟨e1, s1⟩
  rw [h1] at hw1
  simp only at hw1
  cases e1 with
  | some e =>
    simp only [Option.map_some', Stream.Close, hw1, head_drop_append]
  | none =>
    simp only
    have hw2 := write_written s1 message.Body
    rcases h2 : s1.Write message.Body with ⟨e2, s2⟩
    rw [h2] at hw2
    simp only at hw2
    cases e2 with
    | some e =>
      simp only [Option.map_some', Stream.Close, hw1, hw2, List.append_assoc,
        List.singleton_append, head_drop_append]
    | none =>
      simp only [Option.map_some', Stream.Close, hw1, hw2, receiveResponse_written,
        List.append_assoc, List.singleton_append, head_drop_append]

/-- When the header write succeeds, the second `Write` call of `SendRequest` carries the
body, and nothing else is written. -/
theorem sendRequest_writes (json : Codec) (net : Net) (session peerId : GoString)
    (message : Message) (info : AddrInfo) (s : Stream) (host : Host)
    (hpeer : net.peer peerId = some info)
    (hdial : net.Host.NewStream info.ID = (.ok s, host))
    (hw : (s.Write (json.encode (requestHeader session message))).1 = none) :
    (SendRequest json net session peerId message).stream.map Stream.written
      = some (s.written ++ [json.encode (requestHeader session message), message.Body]) := by
  rw [sendRequest_opened json net session peerId message info s host hpeer hdial]
  have hw1 := write_written s (json.encode (requestHeader session message))
  rcases h1 : s.Write (json.encode (requestHeader session message)) with ⟨e1, s1⟩
  rw [h1] at hw1 hw
  simp only at hw1 hw
  subst hw
  simp only
  have hw2 := write_written s1 message.Body
  rcases h2 : s1.Write message.Body with ⟨e2, s2⟩
  rw [h2] at hw2
  simp only at hw2
  cases e2 with
  | some e => simp [Stream.Close, hw1, hw2]
  | none => simp [Stream.Close, hw1, hw2, receiveResponse_written]

theorem failuresOf_cons (a : Attempt) (as : List Attempt) :
    failuresOf (a :: as)
      = (match a.sent.err with
          | some err => [err]
          | none => []) ++ failuresOf as := by
  unfold failuresOf
  cases h : a.sent.err <;> simp [List.filterMap_cons, h]

/-- The loop of `Broadcast` visits every entry it is given, whatever the earlier calls
returned: it makes one `SendRequest` call per entry, in order, with the message it was
given, and collects the errors of the calls that failed. -/
theorem broadcastLoop_spec (json : Codec) (net : Net) (session : GoString) (message : Message) :
    ∀ (entries : List (GoString × Option AddrInfo)) (host : Host) (errs : List Error)
      (log : List Attempt),
      ∃ A : List Attempt,
        (broadcastLoop json net session message entries host errs log).2.2 = log ++ A ∧
        (broadcastLoop json net session message entries host errs log).2.1
          = errs ++ failuresOf A ∧
        A.map (fun a => (a.peerId, a.message)) = entries.map (fun p => (p.1, message)) ∧
        attemptsFrom json net session host A := by
  intro entries
  induction entries with
  | nil =>
    intro host errs log
    exact ⟨[], by simp [broadcastLoop], by simp [broadcastLoop, failuresOf], rfl, trivial⟩
  | cons p rest ih =>
    intro host errs log
    obtain ⟨peerId, x⟩ := p
    obtain ⟨A, h1, h2, h3, h4⟩ := ih
      (SendRequest json { net with Host := host } session peerId message).host
      (match (SendRequest json { net with Host := host } session peerId message).err with
        | some err => errs ++ [err]
        | none => errs)
      (log ++ [{ peerId := peerId, message := message,
                 sent := SendRequest json { net with Host := host } session peerId message }])
    refine ⟨{ peerId := peerId, message := message,
              sent := SendRequest json { net with Host := host } session peerId message } :: A,
      ?_, ?_, ?_, ?_⟩
    · simp only [broadcastLoop]
      rw [h1]; simp
    · simp only [broadcastLoop]
      rw [h2, failuresOf_cons]
      cases (SendRequest json { net with Host := host } session peerId message).err <;> simp
    · simp [h3]
    · exact ⟨rfl, h4⟩

/-- The result `Broadcast` builds from its loop, for the message `m1` it sends. -/
theorem broadcast_of_loop (json : Codec) (net : Net) (session : GoString) (m1 : Message)
    (r : Broadcasted)
    (hr : r = match broadcastLoop json net session m1 net.Peers net.Host [] [] with
      | (host, errs, log) =>
        if errs.length > 0 then
          { err := some (str "failed to broadcast message to " ++ decimal errs.length ++
              str " peers: " ++ fmtErrs errs),
            host := host, attempts := log }
        else
          { err := none, host := host, attempts := log }) :
    r.attempts.map (fun a => (a.peerId, a.message)) = net.Peers.map (fun p => (p.1, m1)) ∧
      attemptsFrom json net session net.Host r.attempts ∧
      r.err = (if (failuresOf r.attempts).length = 0 then none
        else some (str "failed to broadcast message to " ++
          decimal (failuresOf r.attempts).length ++ str " peers: " ++
          fmtErrs (failuresOf r.attempts))) := by
  obtain ⟨A, h1, h2, h3, h4⟩ := broadcastLoop_spec json net session m1 net.Peers net.Host [] []
  rcases hl : broadcastLoop json net session m1 net.Peers net.Host [] [] with ⟨host, errs, log⟩
  rw [hl] at h1 h2 hr
  simp only [List.nil_append] at h1 h2
  subst h1 h2
  simp only at hr
  by_cases hK : (failuresOf log).length = 0
  · have hn : ¬ (failuresOf log).length > 0 := by omega
    rw [if_neg hn] at hr
    subst hr
    simp only [hK, if_true]
    exact ⟨h3, h4, trivial⟩
  · have hp : (failuresOf log).length > 0 := by omega
    rw [if_pos hp] at hr
    subst hr
    simp only [hK, if_false]
    exact ⟨h3, h4, trivial⟩

theorem flatten_replicate_singleton (n : Nat) (a : Nat) :
    ((List.replicate n ([a] : Bytes)).flatten).length = n := by
  induction n with
  | zero => rfl
  | succ n ih => simp [List.replicate_succ, ih]

/-! ## Round trip of the codec model -/

theorem digitsValue_snoc (ds : Bytes) (d : Nat) :
    digitsValue (ds ++ [d]) = digitsValue ds * 10 + (d - 48) := by
  simp [digitsValue, List.foldl_append]

theorem natDigits_spec (fuel : Nat) :
    ∀ n : Nat, n < fuel →
      digitsValue (natDigits fuel n) = n ∧
      (∀ d ∈ natDigits fuel n, isDigit d = true) ∧
      natDigits fuel n ≠ [] ∧
      ((natDigits fuel n).head? = some 48 → n = 0) := by
  induction fuel with
  | zero => intro n h; omega
  | succ fuel ih =>
    intro n hn
    unfold natDigits
    by_cases h10 : n < 10
    · rw [if_pos h10]
      refine ⟨by simp [digitsValue], ?_, by simp, ?_⟩
      · intro d hd
        simp only [List.mem_singleton] at hd
        subst hd
        simp [isDigit]; omega
      · intro hh
        simp only [List.head?_cons, Option.some.injEq] at hh
        omega
    · rw [if_neg h10]
      obtain ⟨h1, h2, h3, h4⟩ := ih (n / 10) (by omega)
      refine ⟨?_, ?_, by simp, ?_⟩
      · rw [digitsValue_snoc, h1]; omega
      · intro d hd
        rcases List.mem_append.mp hd with hd | hd
        · exact h2 d hd
        · simp only [List.mem_singleton] at hd
          subst hd
          simp [isDigit]; omega
      · intro hh
        rw [List.head?_append_of_ne_nil _ h3] at hh
        have := h4 hh
        omega

theorem decimalNat_spec (n : Nat) :
    digitsValue (decimalNat n) = n ∧
      (∀ d ∈ decimalNat n, isDigit d = true) ∧
      decimalNat n ≠ [] ∧
      ((decimalNat n).head? = some 48 → decimalNat n = [48]) := by
  obtain ⟨h1, h2, h3, h4⟩ := natDigits_spec (n + 1) n (by omega)
  refine ⟨h1, h2, h3, ?_⟩
  intro hh
  have h0 := h4 hh
  subst h0
  rfl

theorem takeWhile_digits (ds : Bytes) (c : Nat) (X : Bytes)
    (hds : ∀ d ∈ ds, isDigit d = true) (hc : isDigit c = false) :
    (ds ++ c :: X).takeWhile isDigit = ds ∧ (ds ++ c :: X).dropWhile isDigit = c :: X := by
  rw [List.takeWhile_append_of_pos hds, List.dropWhile_append_of_pos hds,
    List.takeWhile_cons_of_neg (by simp [hc]), List.dropWhile_cons_of_neg (by simp [hc])]
  simp

theorem parseInt_of_digits (neg : Bool) (ds : Bytes) (c : Nat) (X : Bytes)
    (hds : ∀ d ∈ ds, isDigit d = true) (hne : ds ≠ [])
    (hzero : ds.head? = some 48 → ds = [48])
    (hc : isDigit c = false) (hc1 : c ≠ 46) (hc2 : c ≠ 101) (hc3 : c ≠ 69) :
    parseInt ((if neg then [45] else []) ++ ds ++ c :: X)
      = if neg then
          (if digitsValue ds ≤ 2 ^ 63 then some (- (digitsValue ds : Int), c :: X) else none)
        else
          (if digitsValue ds < 2 ^ 63 then some ((digitsValue ds : Int), c :: X) else none) := by
  obtain ⟨d, ds', rfl⟩ := List.exists_cons_of_ne_nil hne
  have hd : isDigit d = true := hds d (by simp)
  have hd45 : d ≠ 45 := by
    intro h; subst h; simp [isDigit] at hd
  have ⟨ht, hdr⟩ := takeWhile_digits (d :: ds') c X hds hc
  have hz : ¬ ((d :: ds').head? = some 48 ∧ 1 < (d :: ds').length) := by
    rintro ⟨h1, h2⟩
    have := hzero h1
    rw [this] at h2
    simp at h2
  cases neg with
  | true =>
    unfold parseInt
    simp only [if_true, List.cons_append, List.nil_append, List.head?_cons, decide_True,
      List.drop_succ_cons, List.drop_zero]
    rw [← List.cons_append, ht, hdr]
    simp only [if_neg hz, List.head?_cons, Option.some.injEq, hc1, hc2, hc3, or_self, if_false]
    simp
    intro h1 h2
    exfalso
    apply hz
    simp [h1]
    omega
  | false =>
    unfold parseInt
    simp only [List.nil_append, List.cons_append, List.head?_cons, Option.some.injEq, hd45,
      decide_False, Bool.false_eq_true, if_false]
    rw [← List.cons_append, ht, hdr]
    simp only [if_neg hz, List.head?_cons, Option.some.injEq, hc1, hc2, hc3, or_self, if_false]
    simp
    intro h1 h2
    exfalso
    apply hz
    simp [h1]
    omega

/-- An integer that fits the type `int` of a 64-bit platform. -/
theorem parseInt_decimal (i : Int) (c : Nat) (X : Bytes)
    (hlo : -(2 ^ 63 : Int) ≤ i) (hhi : i < 2 ^ 63)
    (hc : isDigit c = false) (hc1 : c ≠ 46) (hc2 : c ≠ 101) (hc3 : c ≠ 69) :
    parseInt (decimal i ++ c :: X) = some (i, c :: X) := by
  cases i with
  | ofNat n =>
    obtain ⟨h1, h2, h3, h4⟩ := decimalNat_spec n
    have := parseInt_of_digits false (decimalNat n) c X h2 h3 h4 hc hc1 hc2 hc3
    simp only [Bool.false_eq_true, if_false, List.nil_append, h1] at this
    have hn : n < 2 ^ 63 := by
      have : (n : Int) < 2 ^ 63 := hhi
      exact_mod_cast this
    rw [if_pos hn] at this
    simpa [decimal] using this
  | negSucc n =>
    obtain ⟨h1, h2, h3, h4⟩ := decimalNat_spec (n + 1)
    have := parseInt_of_digits true (decimalNat (n + 1)) c X h2 h3 h4 hc hc1 hc2 hc3
    simp only [if_true, h1] at this
    have hn : n + 1 ≤ 2 ^ 63 := by
      have : -(2 ^ 63 : Int) ≤ Int.negSucc n := hlo
      rw [Int.negSucc_eq] at this
      have h' : ((n : Int) + 1) ≤ 2 ^ 63 := by omega
      exact_mod_cast h'
    rw [if_pos hn] at this
    simp only [decimal, List.cons_append]
    simp only [List.singleton_append, List.cons_append, List.nil_append] at this
    rw [this]
    simp [Int.negSucc_eq]

/-- A rune of several bytes that `decodeRune` accepts, spelled out. -/
theorem decodeRune_shape (bs : Bytes) (h : 2 ≤ (decodeRune bs).2) :
    (∃ b0 b1 t, bs = b0 :: b1 :: t ∧ 0xC2 ≤ b0 ∧ b0 ≤ 0xDF ∧ 0x80 ≤ b1 ∧ b1 ≤ 0xBF ∧
        ∀ X, decodeRune (b0 :: b1 :: X) = ((b0 % 32) * 64 + b1 % 64, 2)) ∨
    (∃ b0 b1 b2 t, bs = b0 :: b1 :: b2 :: t ∧ 0xE0 ≤ b0 ∧ b0 ≤ 0xEF ∧ 0x80 ≤ b1 ∧ b1 ≤ 0xBF ∧
        0x80 ≤ b2 ∧ b2 ≤ 0xBF ∧
        ∀ X, decodeRune (b0 :: b1 :: b2 :: X)
          = ((b0 % 16) * 4096 + (b1 % 64) * 64 + b2 % 64, 3)) ∨
    (∃ b0 b1 b2 b3 t, bs = b0 :: b1 :: b2 :: b3 :: t ∧ 0xF0 ≤ b0 ∧ b0 ≤ 0xF4 ∧
        0x10000 ≤ (b0 % 8) * 262144 + (b1 % 64) * 4096 + (b2 % 64) * 64 + b3 % 64 ∧
        ∀ X, decodeRune (b0 :: b1 :: b2 :: b3 :: X)
          = ((b0 % 8) * 262144 + (b1 % 64) * 4096 + (b2 % 64) * 64 + b3 % 64, 4)) := by
  rcases bs with _ | ⟨b0, rest⟩
  · simp [decodeRune] at h
  · unfold decodeRune at h
    by_cases h1 : b0 < 0x80
    · simp [h1] at h
    · simp only [if_neg h1] at h
      by_cases h2 : 0xC2 ≤ b0 ∧ b0 ≤ 0xDF
      · simp only [if_pos h2] at h
        rcases rest with _ | ⟨b1, t⟩
        · simp at h
        · left
          by_cases hc : isCont b1 = true
          · have hc' := hc
            simp only [isCont, decide_eq_true_eq] at hc'
            exact ⟨b0, b1, t, rfl, h2.1, h2.2, hc'.1, hc'.2,
              fun X => by simp [decodeRune, h1, h2, hc]⟩
          · simp [hc] at h
      · simp only [if_neg h2] at h
        by_cases h3 : 0xE0 ≤ b0 ∧ b0 ≤ 0xEF
        · simp only [if_pos h3] at h
          rcases rest with _ | ⟨b1, _ | ⟨b2, t⟩⟩
          · simp at h
          · simp at h
          · right; left
            by_cases hc : (if b0 = 0xE0 then 0xA0 else 0x80) ≤ b1 ∧
                b1 ≤ (if b0 = 0xED then 0x9F else 0xBF) ∧ isCont b2 = true
            · have hc' := hc
              simp only [isCont, decide_eq_true_eq] at hc'
              refine ⟨b0, b1, b2, t, rfl, h3.1, h3.2, ?_, ?_, hc'.2.2.1, hc'.2.2.2,
                fun X => by simp [decodeRune, h1, h2, h3, hc]⟩
              · have := hc'.1; split at this <;> omega
              · have := hc'.2.1; split at this <;> omega
            · simp [hc] at h
        · simp only [if_neg h3] at h
          by_cases h4 : 0xF0 ≤ b0 ∧ b0 ≤ 0xF4
          · simp only [if_pos h4] at h
            rcases rest with _ | ⟨b1, _ | ⟨b2, _ | ⟨b3, t⟩⟩⟩
            · simp at h
            · simp at h
            · simp at h
            · right; right
              by_cases hc : (if b0 = 0xF0 then 0x90 else 0x80) ≤ b1 ∧
                  b1 ≤ (if b0 = 0xF4 then 0x8F else 0xBF) ∧ isCont b2 = true ∧ isCont b3 = true
              · have hc' := hc
                simp only [isCont, decide_eq_true_eq] at hc'
                refine ⟨b0, b1, b2, b3, t, rfl, h4.1, h4.2, ?_,
                  fun X => by simp [decodeRune, h1, h2, h3, h4, hc]⟩
                have hlo := hc'.1
                have hhi := hc'.2.1
                split at hlo <;> split at hhi <;> omega
              · simp [hc] at h
          · simp [h4] at h

theorem appendString_zero (keep : Bool) (b : Nat) (rest : Bytes) :
    appendString 0 keep (b :: rest) =
      if b < 0x80 then escapeByte b ++ appendString 0 true rest
      else if (decodeRune (b :: rest)).2 ≤ 1 then
        [92, 117, 102, 102, 102, 100] ++ appendString 0 true rest
      else if (decodeRune (b :: rest)).1 = 0x2028 ∨ (decodeRune (b :: rest)).1 = 0x2029 then
        [92, 117, 50, 48, 50, hexDigit ((decodeRune (b :: rest)).1 % 16)] ++
          appendString ((decodeRune (b :: rest)).2 - 1) false rest
      else b :: appendString ((decodeRune (b :: rest)).2 - 1) true rest := by
  rw [appendString]

theorem appendString_pending (bs : Bytes) :
    ∀ (k : Nat) (keep : Bool),
      appendString k keep bs
        = (if keep then bs.take k else []) ++ appendString 0 true (bs.drop k) := by
  induction bs with
  | nil => intro k keep; cases keep <;> simp [appendString]
  | cons b rest ih =>
    intro k keep
    cases k with
    | zero =>
      simp only [List.take_zero, ite_self, List.nil_append, List.drop_zero]
      rw [appendString_zero, appendString_zero]
    | succ k =>
      rw [appendString]
      cases keep with
      | true => simp [ih k true]
      | false => simp [ih k false]

theorem validUTF8_pending (bs : Bytes) :
    ∀ k : Nat, validUTF8 k bs = validUTF8 0 (bs.drop k) := by
  induction bs with
  | nil => intro k; simp [validUTF8]
  | cons b rest ih =>
    intro k
    cases k with
    | zero => rfl
    | succ k => rw [validUTF8]; simpa using ih k

theorem hexVal_hexDigit (x : Nat) (hx : x < 16) : hexVal (hexDigit x) = some x := by
  interval_cases x <;> decide

theorem parseString_plain (fuel b : Nat) (X : Bytes) (h1 : b ≠ 34) (h2 : b ≠ 92)
    (h3 : ¬ b < 32) (h4 : b < 128) :
    parseString (fuel + 1) (b :: X) = (parseString fuel X).map fun r => (b :: r.1, r.2) := by
  rw [parseString.eq_def]
  simp only [if_neg h1, if_neg h2, if_neg h3, if_pos h4]

theorem parseString_short_escape (fuel e c : Nat) (X : Bytes) (he : e ≠ 117)
    (hu : unescape e = some c) :
    parseString (fuel + 1) (92 :: e :: X)
      = (parseString fuel X).map fun r => (c :: r.1, r.2) := by
  rw [parseString.eq_def]
  simp [he, hu]

theorem parseString_u_escape (fuel a b c d u : Nat) (X : Bytes)
    (hu : getu4 (a :: b :: c :: d :: X) = some (u, X)) (hs : ¬ (0xD800 ≤ u ∧ u ≤ 0xDFFF)) :
    parseString (fuel + 1) (92 :: 117 :: a :: b :: c :: d :: X)
      = (parseString fuel X).map fun r => (encodeRune u ++ r.1, r.2) := by
  rw [parseString.eq_def]
  simp only [show (92 : Nat) ≠ 34 by decide, if_false, if_true, hu, if_neg hs]

theorem parseString_escapeByte (fuel b : Nat) (X : Bytes) (hb : b < 0x80) :
    parseString (fuel + 1) (escapeByte b ++ X)
      = (parseString fuel X).map fun r => (b :: r.1, r.2) := by
  unfold escapeByte
  split
  · rename_i h
    exact parseString_plain fuel b X h.2.1 h.2.2.2.2.2 (by omega) (by omega)
  · split
    · rename_i h
      rcases h with h | h <;> subst h <;>
        exact parseString_short_escape fuel _ _ X (by decide) (by decide)
    · split
      · rename_i h; subst h
        exact parseString_short_escape fuel _ _ X (by decide) (by decide)
      · split
        · rename_i h; subst h
          exact parseString_short_escape fuel _ _ X (by decide) (by decide)
        · split
          · rename_i h; subst h
            exact parseString_short_escape fuel _ _ X (by decide) (by decide)
          · split
            · rename_i h; subst h
              exact parseString_short_escape fuel _ _ X (by decide) (by decide)
            · split
              · rename_i h; subst h
                exact parseString_short_escape fuel _ _ X (by decide) (by decide)
              · have hu : getu4 (48 :: 48 :: hexDigit (b / 16) :: hexDigit (b % 16) :: X)
                    = some (b, X) := by
                  have h0 : hexVal 48 = some 0 := by decide
                  simp only [getu4, h0, hexVal_hexDigit (b / 16) (by omega),
                    hexVal_hexDigit (b % 16) (by omega)]
                  simp only [Nat.zero_mul, Nat.zero_add, Option.some.injEq, Prod.mk.injEq,
                    and_true]
                  omega
                have := parseString_u_escape fuel 48 48 (hexDigit (b / 16)) (hexDigit (b % 16))
                  b X hu (by omega)
                simp only [List.cons_append, List.nil_append]
                rw [this]
                simp [encodeRune, hb]

theorem parseString_rune (fuel b0 : Nat) (rest : Bytes) (hb : 0x80 ≤ b0)
    (hn : 2 ≤ (decodeRune (b0 :: rest)).2) :
    parseString (fuel + 1) (b0 :: rest)
      = (parseString fuel (rest.drop ((decodeRune (b0 :: rest)).2 - 1))).map fun r =>
          ((b0 :: rest).take (decodeRune (b0 :: rest)).2 ++ r.1, r.2) := by
  rw [parseString.eq_def]
  have h1 : b0 ≠ 34 := by omega
  have h2 : b0 ≠ 92 := by omega
  have h3 : ¬ b0 < 32 := by omega
  have h4 : ¬ b0 < 128 := by omega
  have h5 : ¬ (decodeRune (b0 :: rest)).2 ≤ 1 := by omega
  simp only [if_neg h1, if_neg h2, if_neg h3, if_neg h4, if_neg h5]

theorem escapeByte_length_pos (b : Nat) : 0 < (escapeByte b).length := by
  unfold escapeByte
  repeat' split
  all_goals simp

theorem parseString_quote_end (fuel : Nat) (X : Bytes) :
    parseString (fuel + 1) (34 :: X) = some ([], X) := by
  rw [parseString.eq_def]
  simp

/-- The string decoder undoes the string encoder on valid UTF-8. -/
theorem parseString_appendString (n : Nat) :
    ∀ bs : Bytes, bs.length ≤ n → validUTF8 0 bs = true →
      ∀ (fuel : Nat) (X : Bytes), (appendString 0 true bs).length < fuel →
        parseString fuel (appendString 0 true bs ++ 34 :: X) = some (bs, X) := by
  induction n with
  | zero =>
    intro bs hlen _ fuel X hfuel
    have : bs = [] := List.length_eq_zero.mp (by omega)
    subst this
    obtain ⟨f, rfl⟩ : ∃ f, fuel = f + 1 := ⟨fuel - 1, by omega⟩
    simpa [appendString] using parseString_quote_end f X
  | succ n ih =>
    intro bs hlen hv fuel X hfuel
    rcases bs with _ | ⟨b, rest⟩
    · obtain ⟨f, rfl⟩ : ∃ f, fuel = f + 1 := ⟨fuel - 1, by omega⟩
      simpa [appendString] using parseString_quote_end f X
    · obtain ⟨f, rfl⟩ : ∃ f, fuel = f + 1 := ⟨fuel - 1, by omega⟩
      simp only [List.length_cons] at hlen
      by_cases hb : b < 0x80
      · rw [validUTF8, if_pos hb] at hv
        rw [appendString_zero, if_pos hb] at hfuel ⊢
        have hpos := escapeByte_length_pos b
        simp only [List.length_append] at hfuel
        rw [List.append_assoc, parseString_escapeByte f b _ hb,
          ih rest (by omega) hv f X (by omega)]
        rfl
      · rw [validUTF8, if_neg hb] at hv
        by_cases hsz : (decodeRune (b :: rest)).2 ≤ 1
        · simp [hsz] at hv
        · rw [if_neg hsz, validUTF8_pending] at hv
          rcases decodeRune_shape (b :: rest) (by omega) with
            ⟨b0, b1, t, hbs, h0lo, h0hi, h1lo, h1hi, hdec⟩ |
            ⟨b0, b1, b2, t, hbs, h0lo, h0hi, h1lo, h1hi, h2lo, h2hi, hdec⟩ |
            ⟨b0, b1, b2, b3, t, hbs, h0lo, h0hi, hval, hdec⟩
          · simp only [List.cons.injEq] at hbs
            obtain ⟨rfl, rfl⟩ := hbs
            have hd := hdec t
            rw [hd] at hv
            simp only [Nat.add_one_sub_one, List.drop_succ_cons, List.drop_zero] at hv
            have hne : ¬ ((b % 32) * 64 + b1 % 64 = 0x2028 ∨ (b % 32) * 64 + b1 % 64 = 0x2029) := by
              omega
            rw [appendString_zero, if_neg hb, hd, if_neg (by omega), if_neg hne,
              appendString_pending] at hfuel ⊢
            simp only [Nat.add_one_sub_one, if_true, List.take_succ_cons, List.take_zero,
              List.drop_succ_cons, List.drop_zero, List.cons_append, List.nil_append,
              List.length_cons] at hfuel ⊢
            rw [parseString_rune f b _ (by omega) (by simp [hdec]), hdec]
            simp only [Nat.add_one_sub_one, List.drop_succ_cons, List.drop_zero,
              List.take_succ_cons, List.take_zero]
            rw [ih t (by simp only [List.length_cons] at hlen; omega) hv f X (by omega)]
            rfl
          · simp only [List.cons.injEq] at hbs
            obtain ⟨rfl, rfl⟩ := hbs
            have hd := hdec t
            rw [hd] at hv
            simp only [Nat.add_one_sub_one, List.drop_succ_cons, List.drop_zero] at hv
            by_cases h28 : (b % 16) * 4096 + (b1 % 64) * 64 + b2 % 64 = 0x2028
            · have e0 : b = 0xE2 := by omega
              have e1 : b1 = 0x80 := by omega
              have e2 : b2 = 0xA8 := by omega
              subst e0 e1 e2
              rw [appendString_zero, if_neg hb, hd, if_neg (by omega), if_pos (Or.inl rfl),
                appendString_pending] at hfuel ⊢
              simp only [Nat.add_one_sub_one, Bool.false_eq_true, if_false,
                List.drop_succ_cons, List.drop_zero, List.cons_append, List.nil_append,
                List.length_cons] at hfuel ⊢
              have hu : getu4 (50 :: 48 :: 50 :: hexDigit (8232 % 16) ::
                  (appendString 0 true t ++ 34 :: X))
                  = some (0x2028, appendString 0 true t ++ 34 :: X) := by
                have a1 : hexVal 50 = some 2 := by decide
                have a2 : hexVal 48 = some 0 := by decide
                have a3 : hexVal (hexDigit (8232 % 16)) = some 8 := by decide
                simp [getu4, a1, a2, a3]
              rw [parseString_u_escape f _ _ _ _ _ _ hu (by omega),
                ih t (by simp only [List.length_cons] at hlen; omega) hv f X (by omega)]
              rfl
            · by_cases h29 : (b % 16) * 4096 + (b1 % 64) * 64 + b2 % 64 = 0x2029
              · have e0 : b = 0xE2 := by omega
                have e1 : b1 = 0x80 := by omega
                have e2 : b2 = 0xA9 := by omega
                subst e0 e1 e2
                rw [appendString_zero, if_neg hb, hd, if_neg (by omega), if_pos (Or.inr rfl),
                  appendString_pending] at hfuel ⊢
                simp only [Nat.add_one_sub_one, Bool.false_eq_true, if_false,
                  List.drop_succ_cons, List.drop_zero, List.cons_append, List.nil_append,
                  List.length_cons] at hfuel ⊢
                have hu : getu4 (50 :: 48 :: 50 :: hexDigit (8233 % 16) ::
                    (appendString 0 true t ++ 34 :: X))
                    = some (0x2029, appendString 0 true t ++ 34 :: X) := by
                  have a1 : hexVal 50 = some 2 := by decide
                  have a2 : hexVal 48 = some 0 := by decide
                  have a3 : hexVal (hexDigit (8233 % 16)) = some 9 := by decide
                  simp [getu4, a1, a2, a3]
                rw [parseString_u_escape f _ _ _ _ _ _ hu (by omega),
                  ih t (by simp only [List.length_cons] at hlen; omega) hv f X (by omega)]
                rfl
              · have hne : ¬ ((b % 16) * 4096 + (b1 % 64) * 64 + b2 % 64 = 0x2028 ∨
                    (b % 16) * 4096 + (b1 % 64) * 64 + b2 % 64 = 0x2029) := by
                  rintro (h | h)
                  · exact h28 h
                  · exact h29 h
                rw [appendString_zero, if_neg hb, hd, if_neg (by omega), if_neg hne,
                  appendString_pending] at hfuel ⊢
                simp only [Nat.add_one_sub_one, if_true, List.take_succ_cons, List.take_zero,
                  List.drop_succ_cons, List.drop_zero, List.cons_append, List.nil_append,
                  List.length_cons] at hfuel ⊢
                rw [parseString_rune f b _ (by omega) (by simp [hdec]), hdec]
                simp only [Nat.add_one_sub_one, List.drop_succ_cons, List.drop_zero,
                  List.take_succ_cons, List.take_zero]
                rw [ih t (by simp only [List.length_cons] at hlen; omega) hv f X (by omega)]
                rfl
          · simp only [List.cons.injEq] at hbs
            obtain ⟨rfl, rfl⟩ := hbs
            have hd := hdec t
            rw [hd] at hv
            simp only [Nat.add_one_sub_one, List.drop_succ_cons, List.drop_zero] at hv
            have hne : ¬ ((b % 8) * 262144 + (b1 % 64) * 4096 + (b2 % 64) * 64 + b3 % 64 = 0x2028 ∨
                (b % 8) * 262144 + (b1 % 64) * 4096 + (b2 % 64) * 64 + b3 % 64 = 0x2029) := by
              omega
            rw [appendString_zero, if_neg hb, hd, if_neg (by omega), if_neg hne,
              appendString_pending] at hfuel ⊢
            simp only [Nat.add_one_sub_one, if_true, List.take_succ_cons, List.take_zero,
              List.drop_succ_cons, List.drop_zero, List.cons_append, List.nil_append,
              List.length_cons] at hfuel ⊢
            rw [parseString_rune f b _ (by omega) (by simp [hdec]), hdec]
            simp only [Nat.add_one_sub_one, List.drop_succ_cons, List.drop_zero,
              List.take_succ_cons, List.take_zero]
            rw [ih t (by simp only [List.length_cons] at hlen; omega) hv f X (by omega)]
            rfl

theorem skipSpace_cons (b : Nat) (X : Bytes) (hb : isSpace b = false) :
    skipSpace (b :: X) = b :: X := by
  rw [skipSpace, hb]; rfl

theorem decimal_head (i : Int) :
    ∃ d ds, decimal i = d :: ds ∧ (d = 45 ∨ isDigit d = true) := by
  cases i with
  | ofNat n =>
    obtain ⟨_, h2, h3, _⟩ := decimalNat_spec n
    obtain ⟨d, ds, hd⟩ := List.exists_cons_of_ne_nil h3
    exact ⟨d, ds, by simpa [decimal] using hd, Or.inr (h2 d (by rw [hd]; simp))⟩
  | negSucc n => exact ⟨45, decimalNat (n + 1), rfl, Or.inl rfl⟩

theorem parseValue_int (i : Int) (c : Nat) (X : Bytes) (hi : fitsInt i = true)
    (hc : c = 44 ∨ c = 125) :
    parseValue (decimal i ++ c :: X) = some (.int i, c :: X) ∧
      skipSpace (decimal i ++ c :: X) = decimal i ++ c :: X := by
  simp only [fitsInt, decide_eq_true_eq] at hi
  have hp := parseInt_decimal i c X hi.1 hi.2
    (by rcases hc with h | h <;> subst h <;> decide)
    (by rcases hc with h | h <;> subst h <;> decide)
    (by rcases hc with h | h <;> subst h <;> decide)
    (by rcases hc with h | h <;> subst h <;> decide)
  obtain ⟨d, ds, hd, hdig⟩ := decimal_head i
  have hd' : d = 45 ∨ (48 ≤ d ∧ d ≤ 57) := by
    rcases hdig with h | h
    · exact Or.inl h
    · right; simpa [isDigit] using h
  constructor
  · unfold parseValue
    rw [hp]
    rw [hd]
    have h1 : (d :: ds ++ c :: X).head? ≠ some 34 := by
      simp only [List.cons_append, List.head?_cons, ne_eq, Option.some.injEq]; omega
    have h2 : (d :: ds ++ c :: X).take 4 ≠ str "true" := by
      intro h
      have := congrArg List.head? h
      simp [str] at this
      omega
    have h3 : (d :: ds ++ c :: X).take 5 ≠ str "false" := by
      intro h
      have := congrArg List.head? h
      simp [str] at this
      omega
    have h4 : (d :: ds ++ c :: X).take 4 ≠ str "null" := by
      intro h
      have := congrArg List.head? h
      simp [str] at this
      omega
    rw [if_neg h1, if_neg h2, if_neg h3, if_neg h4]
    rfl
  · rw [hd]
    exact skipSpace_cons d _ (by simp [isSpace]; omega)

theorem parseValue_text (s : GoString) (c : Nat) (X : Bytes) (hs : validUTF8 0 s = true) :
    parseValue (quote s ++ c :: X) = some (.text s, c :: X) ∧
      skipSpace (quote s ++ c :: X) = quote s ++ c :: X := by
  constructor
  · unfold parseValue quote
    simp only [List.singleton_append, List.cons_append, List.head?_cons, if_true,
      List.drop_succ_cons, List.drop_zero, List.append_assoc, List.nil_append]
    rw [parseString_appendString s.length s (le_refl _) hs _ (c :: X)
      (by simp only [List.length_cons, List.length_append]; omega)]
    rfl
  · unfold quote
    exact skipSpace_cons 34 _ (by decide)

theorem parseValue_bool (b : Bool) (c : Nat) (X : Bytes) :
    parseValue ((if b then str "true" else str "false") ++ c :: X) = some (.bool b, c :: X) ∧
      skipSpace ((if b then str "true" else str "false") ++ c :: X)
        = (if b then str "true" else str "false") ++ c :: X := by
  cases b <;> exact ⟨rfl, rfl⟩

/-- One member of an object, for a key of the codec, a value the decoder reads back and a
following comma or closing brace. -/
theorem parseMembers_member (fuel : Nat) (m m1 : MessageHeader) (key : GoString)
    (value : Bytes) (v : JVal) (c : Nat) (X : Bytes)
    (hkey : validUTF8 0 key = true)
    (hval : parseValue (value ++ c :: X) = some (v, c :: X) ∧
      skipSpace (value ++ c :: X) = value ++ c :: X)
    (hset : setField m key v = some m1) :
    parseMembers (fuel + 1) m (member key value ++ c :: X)
      = match skipSpace (c :: X) with
        | 44 :: rest4 => parseMembers fuel m1 rest4
        | 125 :: _ => some m1
        | _ => none := by
  unfold member quote
  rw [parseMembers]
  simp only [List.singleton_append, List.cons_append, List.append_assoc, List.nil_append]
  rw [skipSpace_cons 34 _ (by decide)]
  simp only
  rw [parseString_appendString key.length key (le_refl _) hkey _ (58 :: (value ++ c :: X))
    (by simp only [List.length_cons, List.length_append]; omega)]
  simp only
  rw [skipSpace_cons 58 _ (by decide)]
  simp only
  rw [hval.2, hval.1]
  simp only [hset]

theorem goEncode_append (h : MessageHeader) (rest : Bytes) :
    goEncode h ++ rest =
      123 :: (member (str "type") (decimal h.Typ) ++ 44 ::
        (member (str "size") (decimal h.Size) ++ 44 ::
        (member (str "session") (quote h.Session) ++ 44 ::
        (member (str "status") (decimal h.Status) ++ 44 ::
        (member (str "error_message") (quote h.ErrorMessage) ++ 44 ::
        (member (str "is_broadcast") (if h.IsBroadcast then str "true" else str "false") ++
          125 :: 10 :: rest)))))) := by
  simp [goEncode, List.append_assoc]

theorem member_head (key : GoString) (value Y : Bytes) :
    member key value ++ Y = 34 :: (appendString 0 true key ++ 34 :: 58 :: (value ++ Y)) := by
  simp [member, quote, List.append_assoc]

/-- The codec model carries every well-formed header unchanged: the decoder gives back
the header from its encoding, whatever follows the encoding in the buffer. -/
theorem goJson_round_trip (h : MessageHeader) (hw : wellFormed h = true) (rest : Bytes) :
    goDecode (goEncode h ++ rest) = .ok h := by
  simp only [wellFormed, Bool.and_eq_true] at hw
  obtain ⟨⟨⟨⟨hT, hS⟩, hSt⟩, hSes⟩, hErr⟩ := hw
  have hlen : 6 ≤ (goEncode h ++ rest).length := by
    rw [goEncode_append]
    simp only [List.length_cons, List.length_append]
    omega
  obtain ⟨k, hk⟩ : ∃ k, (goEncode h ++ rest).length = k + 6 :=
    ⟨(goEncode h ++ rest).length - 6, by omega⟩
  unfold goDecode
  rw [hk, goEncode_append]
  rw [skipSpace_cons 123 _ (by decide)]
  simp only
  rw [member_head (str "type"), skipSpace_cons 34 _ (by decide)]
  simp only
  rw [← member_head (str "type")]
  have s1 := parseMembers_member (k + 5) zeroHeader { zeroHeader with Typ := h.Typ }
    (str "type") (decimal h.Typ) (.int h.Typ) 44
    (member (str "size") (decimal h.Size) ++ 44 ::
        (member (str "session") (quote h.Session) ++ 44 ::
        (member (str "status") (decimal h.Status) ++ 44 ::
        (member (str "error_message") (quote h.ErrorMessage) ++ 44 ::
        (member (str "is_broadcast") (if h.IsBroadcast then str "true" else str "false") ++
          125 :: 10 :: rest)))))
    (by decide) (parseValue_int h.Typ 44 _ hT (Or.inl rfl)) rfl
  rw [skipSpace_cons 44 _ (by decide)] at s1
  simp only at s1
  rw [s1]
  have s2 := parseMembers_member (k + 4) { zeroHeader with Typ := h.Typ }
    { zeroHeader with Typ := h.Typ, Size := h.Size }
    (str "size") (decimal h.Size) (.int h.Size) 44
    (member (str "session") (quote h.Session) ++ 44 ::
        (member (str "status") (decimal h.Status) ++ 44 ::
        (member (str "error_message") (quote h.ErrorMessage) ++ 44 ::
        (member (str "is_broadcast") (if h.IsBroadcast then str "true" else str "false") ++
          125 :: 10 :: rest))))
    (by decide) (parseValue_int h.Size 44 _ hS (Or.inl rfl)) rfl
  rw [skipSpace_cons 44 _ (by decide)] at s2
  simp only at s2
  rw [s2]
  have s3 := parseMembers_member (k + 3) { zeroHeader with Typ := h.Typ, Size := h.Size }
    { zeroHeader with Typ := h.Typ, Size := h.Size, Session := h.Session }
    (str "session") (quote h.Session) (.text h.Session) 44
    (member (str "status") (decimal h.Status) ++ 44 ::
        (member (str "error_message") (quote h.ErrorMessage) ++ 44 ::
        (member (str "is_broadcast") (if h.IsBroadcast then str "true" else str "false") ++
          125 :: 10 :: rest)))
    (by decide) (parseValue_text h.Session 44 _ hSes) rfl
  rw [skipSpace_cons 44 _ (by decide)] at s3
  simp only at s3
  rw [s3]
  have s4 := parseMembers_member (k + 2)
    { zeroHeader with Typ := h.Typ, Size := h.Size, Session := h.Session }
    { zeroHeader with Typ := h.Typ, Size := h.Size, Session := h.Session, Status := h.Status }
    (str "status") (decimal h.Status) (.int h.Status) 44
    (member (str "error_message") (quote h.ErrorMessage) ++ 44 ::
        (member (str "is_broadcast") (if h.IsBroadcast then str "true" else str "false") ++
          125 :: 10 :: rest))
    (by decide) (parseValue_int h.Status 44 _ hSt (Or.inl rfl)) rfl
  rw [skipSpace_cons 44 _ (by decide)] at s4
  simp only at s4
  rw [s4]
  have s5 := parseMembers_member (k + 1)
    { zeroHeader with Typ := h.Typ, Size := h.Size, Session := h.Session, Status := h.Status }
    { zeroHeader with Typ := h.Typ, Size := h.Size, Session := h.Session, Status := h.Status,
                      ErrorMessage := h.ErrorMessage }
    (str "error_message") (quote h.ErrorMessage) (.text h.ErrorMessage) 44
    (member (str "is_broadcast") (if h.IsBroadcast then str "true" else str "false") ++
          125 :: 10 :: rest)
    (by decide) (parseValue_text h.ErrorMessage 44 _ hErr) rfl
  rw [skipSpace_cons 44 _ (by decide)] at s5
  simp only at s5
  rw [s5]
  have s6 := parseMembers_member k
    { zeroHeader with Typ := h.Typ, Size := h.Size, Session := h.Session, Status := h.Status,
                      ErrorMessage := h.ErrorMessage }
    { zeroHeader with Typ := h.Typ, Size := h.Size, Session := h.Session, Status := h.Status,
                      ErrorMessage := h.ErrorMessage, IsBroadcast := h.IsBroadcast }
    (str "is_broadcast") (if h.IsBroadcast then str "true" else str "false")
    (.bool h.IsBroadcast) 125 (10 :: rest)
    (by decide) (parseValue_bool h.IsBroadcast 125 _) rfl
  rw [skipSpace_cons 125 _ (by decide)] at s6
  simp only at s6
  rw [s6]

theorem unmarshal_goJson (b : Bytes) : Unmarshal goJson b = goDecode b := rfl

/-- The codec model decodes a well-formed header back from the header buffer that holds
its encoding. -/
theorem goJson_round_trip_buffer (h : MessageHeader) (hw : wellFormed h = true) :
    Unmarshal goJson (zeroFill BUF (goEncode h)) = .ok h := by
  rw [unmarshal_goJson, zeroFill]
  exact goJson_round_trip h hw _

theorem goJson_round_trip_exact (h : MessageHeader) (hw : wellFormed h = true) :
    Unmarshal goJson (goEncode h) = .ok h := by
  have := goJson_round_trip h hw []
  rw [List.append_nil] at this
  rw [unmarshal_goJson]
  exact this

/-! ## The text of the error of `Broadcast` -/

theorem digitChar_toNat (x : Nat) (hx : x < 10) : (Nat.digitChar x).toNat = 48 + x := by
  interval_cases x <;> rfl

theorem toDigitsCore_natDigits (fuel : Nat) :
    ∀ (n : Nat) (ds : List Char),
      (Nat.toDigitsCore 10 fuel n ds).map Char.toNat = natDigits fuel n ++ ds.map Char.toNat := by
  induction fuel with
  | zero => intro n ds; simp [Nat.toDigitsCore, natDigits]
  | succ fuel ih =>
    intro n ds
    simp only [Nat.toDigitsCore, natDigits]
    by_cases h : n < 10
    · have h0 : n / 10 = 0 := by omega
      have hm : n % 10 = n := by omega
      simp [h0, h, hm, digitChar_toNat n h]
    · have h0 : ¬ n / 10 = 0 := by omega
      rw [if_neg h0, if_neg h, ih]
      simp [digitChar_toNat (n % 10) (by omega)]

/-- The decimal text of the model is the text `Nat.repr` gives. -/
theorem decimal_ofNat (n : Nat) : decimal (n : Int) = (toString n).toList.map Char.toNat := by
  have h := toDigitsCore_natDigits (n + 1) n []
  simp only [List.map_nil, List.append_nil] at h
  show decimalNat n = _
  unfold decimalNat
  rw [← h]
  rfl

/-- The text of the error of `Broadcast`, written with the functions of the library. -/
theorem broadcast_text (errs : List Error) :
    str "failed to broadcast message to " ++ decimal errs.length ++ str " peers: " ++
        fmtErrs errs
      = ("failed to broadcast message to " ++ toString errs.length ++ " peers: [").toList.map
          Char.toNat ++ List.intercalate [32] errs ++ [93] := by
  rw [decimal_ofNat]
  simp only [fmtErrs, str, String.toList, String.data_append, List.map_append,
    List.append_assoc]
  rfl

/-! ## Evaluations on concrete inputs -/

set_option maxRecDepth 100000 in
/-- A broadcast to two peers of which the first cannot be dialled: both are attempted,
and the error names one failure and its cause. -/
theorem broadcast_two_peers :
    (Broadcast goJson exNetTwo (str "abc") exMessage).err
        = some (str "failed to broadcast message to 1 peers: [Error creating stream: no route]") ∧
      (Broadcast goJson exNetTwo (str "abc") exMessage).attempts.map (fun a => a.peerId)
        = [exPeer, exPeerB] ∧
      (Broadcast goJson exNetTwo (str "abc") exMessage).host.opened = [exPeer, exPeerB] := by
  decide

/-- A connection that succeeds at the third attempt: the peer is registered under its
identity after two failed dials. -/
theorem connect_after_retries :
    (ConnectToPeer exLib
        { Host := { dials := [.fail (str "refused"), .fail (str "refused"),
                              .stream (streamOf [])], opened := [], peerstore := [] },
          Peers := [] }
        (str "/ip4/127.0.0.1/tcp/4001/p2p/QmPeerA")).1
      = .returned exPeer
          { Host := { dials := [], opened := [exPeer, exPeer, exPeer],
                      peerstore := List.replicate 3
                        (exPeer, [str "/ip4/127.0.0.1/tcp/4001/p2p/QmPeerA"]) },
            Peers := [(exPeer, some { ID := exPeer,
                                      Addrs := [str "/ip4/127.0.0.1/tcp/4001/p2p/QmPeerA"] })] } := by
  decide

set_option maxRecDepth 100000 in
/-- A header of `Size` 0 is returned with an empty body and the stream is left alone. -/
theorem handleStream_empty_body :
    HandleStream goJson exConsts (streamOf [.data (goEncode exOkResponse), .data [1, 2, 3]])
      = (.message { Header := exOkResponse, Body := [] }, streamOf [.data [1, 2, 3]]) := by
  decide

/-! ## Claims -/

set_option maxRecDepth 100000 in
/-- Counterexample to C1: the frame of the concrete scenario (header of `Size` 5, body
"hello": 92 bytes) delivered by the stream in a single read. The header read takes all
92 bytes, the header decodes, the five body bytes that came with it are dropped with the
buffer, and the body loop finds the stream at its end: `HandleStream` returns the error
`EOF` instead of the message. -/
theorem frame_round_trip_counterexample :
    (exBody.length : Int) = exHeader.Size ∧
      [goEncode exHeader ++ exBody].flatten = goEncode exHeader ++ exBody ∧
      (goEncode exHeader ++ exBody).length ≤ 1028 ∧
      (HandleStream goJson exConsts (streamOf [.data (goEncode exHeader ++ exBody)])).1
        = .failure EOF ∧
      (HandleStream goJson exConsts (streamOf [.data (goEncode exHeader ++ exBody)])).1
        ≠ .message { Header := exHeader, Body := exBody } := by
  have hrun : (HandleStream goJson exConsts
      (streamOf [.data (goEncode exHeader ++ exBody)])).1 = .failure EOF := by
    rw [handleStream_header goJson exConsts _ (goEncode exHeader ++ exBody) [] exHeader rfl
      (by decide) (by decide) (by decide) (by decide)]
    obtain ⟨s1, h1, _⟩ := readBody_fails_now goJson exConsts exHeader
      (List.replicate exHeader.Size.toNat 0) 0
      { streamOf [.data (goEncode exHeader ++ exBody)] with reads := [] } EOF
      (by decide) rfl
    rw [h1]
  refine ⟨by decide, by decide, by decide, hrun, ?_⟩
  rw [hrun]
  exact fun h => Handled.noConfusion h

/-- C1, amended. Frame round trip: for every header `h` whose strings are valid UTF-8
(and whose integers are Go `int`s) and every body `b` with `len(b) = h.Size` (a byte
slice, so of a length `make` can allocate), when the encoding `Marshal(h)` is at most
1028 bytes long, the first read of the stream gives exactly the bytes of `Marshal(h)` and
the following reads give the bytes of `b` split into chunks in any way, `HandleStream`
returns without error the message with header `h` and body `b`. -/
theorem frame_round_trip (k : Consts) (h : MessageHeader) (b : Bytes)
    (chunks : List Bytes) (rest : List ReadResult) (s : Stream)
    (hwf : wellFormed h = true)
    (hsize : (b.length : Int) = h.Size)
    (halloc : b.length ≤ k.maxAlloc)
    (hfit : (goEncode h).length ≤ BUF)
    (hsplit : chunks.flatten = b)
    (hreads : s.reads = .data (goEncode h) :: (chunks.map ReadResult.data ++ rest)) :
    (HandleStream goJson k s).1 = .message { Header := h, Body := b } := by
  subst hsplit
  have hrt : Unmarshal goJson (zeroFill BUF (goEncode h)) = .ok h :=
    goJson_round_trip_buffer h hwf
  exact (handleStream_collect goJson k s (goEncode h) chunks rest h hreads hfit hrt hsize
    (by omega)).1

set_option maxRecDepth 100000 in
/-- Witness for C1, amended: the concrete scenario, the header in the first read and the
body in two reads. -/
theorem frame_round_trip_witness :
    wellFormed exHeader = true ∧ exBody.length ≤ exConsts.maxAlloc ∧
      (goEncode exHeader).length ≤ BUF ∧
      (HandleStream goJson exConsts
        (streamOf (.data (goEncode exHeader) ::
          ([[104, 101], [108, 108, 111]].map ReadResult.data ++ [])))).1
        = .message { Header := exHeader, Body := exBody } :=
  ⟨by decide, by decide, by decide,
    frame_round_trip exConsts exHeader exBody [[104, 101], [108, 108, 111]] []
      (streamOf (.data (goEncode exHeader) ::
          ([[104, 101], [108, 108, 111]].map ReadResult.data ++ [])))
      (by decide) (by decide) (by decide) (by decide) (by decide) rfl⟩

set_option maxRecDepth 100000 in
/-- Counterexample to C2: on linux/amd64 (allocation limit `1 << 48`), a header that
decodes with `Size = 2^48 + 1` followed by `2^48 + 1` successful reads of one byte each.
The chunks are non-empty, at most 1028 bytes long and concatenate to exactly `Size`
bytes, but `make([]byte, Size)` panics before the first body read: `HandleStream`
returns no message. -/
theorem handleStream_chunked_body_counterexample :
    Unmarshal goJson (zeroFill BUF (goEncode exHugeHeader)) = .ok exHugeHeader ∧
      0 < exHugeHeader.Size ∧
      (∀ c ∈ List.replicate 281474976710657 ([0] : Bytes), 0 < c.length ∧ c.length ≤ 1028) ∧
      ((List.replicate 281474976710657 ([0] : Bytes)).flatten.length : Int)
        = exHugeHeader.Size ∧
      (HandleStream goJson exConsts
        (streamOf (.data (goEncode exHugeHeader) ::
          ((List.replicate 281474976710657 ([0] : Bytes)).map ReadResult.data ++ [])))).1
        = .panic := by
  have hdec : Unmarshal goJson (zeroFill BUF (goEncode exHugeHeader)) = .ok exHugeHeader :=
    goJson_round_trip_buffer exHugeHeader (by decide)
  refine ⟨hdec, by decide, ?_, ?_, ?_⟩
  · intro c hc
    rw [List.eq_of_mem_replicate hc]
    decide
  · rw [flatten_replicate_singleton]
    rfl
  · unfold HandleStream
    rw [read_data_le _ BUF (goEncode exHugeHeader) _ rfl (by decide)]
    simp only [hdec]
    rw [if_neg (by decide), if_pos (by decide)]

/-- C2, amended. Chunked body reassembly: when the header read gives a header that
decodes with a size `S > 0` that `make` can allocate (`S` at most the allocation limit)
and the following reads succeed with chunks (of any sizes, one byte each for example)
that concatenate to exactly `S` bytes, `HandleStream` returns a message with that header
whose body is the concatenation of the chunks, byte for byte and in order (and writes
nothing to the stream and does not close it). -/
theorem handleStream_chunked_body (json : Codec) (k : Consts) (s : Stream) (hdr : Bytes)
    (chunks : List Bytes) (rest : List ReadResult) (mh : MessageHeader)
    (hreads : s.reads = .data hdr :: (chunks.map ReadResult.data ++ rest))
    (hfit : hdr.length ≤ BUF)
    (hdec : Unmarshal json (zeroFill BUF hdr) = .ok mh)
    (hpos : 0 < mh.Size)
    (halloc : mh.Size ≤ k.maxAlloc)
    (hlen : (chunks.flatten.length : Int) = mh.Size) :
    (HandleStream json k s).1 = .message { Header := mh, Body := chunks.flatten } ∧
      (HandleStream json k s).2.written = s.written ∧
      (HandleStream json k s).2.closed = s.closed := by
  have _ := hpos
  exact handleStream_collect json k s hdr chunks rest mh hreads hfit hdec hlen halloc

set_option maxRecDepth 100000 in
/-- Witness for C2, amended: the body "hello" arriving one byte per read. -/
theorem handleStream_chunked_body_witness :
    (HandleStream goJson exConsts
        (streamOf (.data (goEncode exHeader) ::
          ([[104], [101], [108], [108], [111]].map ReadResult.data ++ [])))).1
      = .message { Header := exHeader, Body := exBody } :=
  (handleStream_chunked_body goJson exConsts _ (goEncode exHeader)
    [[104], [101], [108], [108], [111]] [] exHeader rfl (by decide) (by decide) (by decide)
    (by decide) (by decide)).1

/-- C3. Broadcast attempts every peer and aggregates the failures: `Broadcast` makes
exactly one `SendRequest` call per entry of the registry, in the order of the visit, each
with the caller's message with `IsBroadcast = true` and each on the host state the
previous call left, whatever the earlier calls returned; with `e1 ... eK` the errors of
the calls that failed, in order, it returns nil when `K = 0` and otherwise the error
whose text is "failed to broadcast message to K peers: [e1 ... eK]": the count `K` in
decimal and, between the brackets, the texts of exactly these `K` errors separated by
single spaces. -/
theorem broadcast_attempts_all (json : Codec) (net : Net) (session : GoString)
    (message : Message) :
    (Broadcast json net session message).attempts.map (fun a => (a.peerId, a.message))
        = net.Peers.map (fun p =>
            (p.1, { message with Header := { message.Header with IsBroadcast := true } })) ∧
      attemptsFrom json net session net.Host (Broadcast json net session message).attempts ∧
      (Broadcast json net session message).err
        = (if ((Broadcast json net session message).attempts.filterMap
                fun a => a.sent.err).length = 0 then none
           else some (
            ("failed to broadcast message to " ++
              toString ((Broadcast json net session message).attempts.filterMap
                fun a => a.sent.err).length ++
              " peers: [").toList.map Char.toNat ++
            List.intercalate [32]
              ((Broadcast json net session message).attempts.filterMap fun a => a.sent.err) ++
            [93])) := by
  obtain ⟨h1, h2, h3⟩ := broadcast_of_loop json net session
    { message with Header := { message.Header with IsBroadcast := true } }
    (Broadcast json net session message) rfl
  refine ⟨h1, h2, ?_⟩
  rw [h3, broadcast_text]
  rfl

/-- C4. Unknown peer: when the peer identity is not a key of `net.Peers`, `SendRequest`
returns the error "peer ... not found" and does no I/O: the host is left as it was (no
`NewStream` call) and no stream exists on which anything could be written or read. -/
theorem sendRequest_unknown_peer (json : Codec) (net : Net) (session peerId : GoString)
    (message : Message) (habsent : ∀ p ∈ net.Peers, p.1 ≠ peerId) :
    SendRequest json net session peerId message =
      { err := some (str "peer %!d(string=" ++ peerId ++ str ") not found"),
        host := net.Host, stream := none } := by
  have hl : net.Peers.lookup peerId = none := by
    rw [List.lookup_eq_none_iff]
    intro p hp
    simpa using fun h => habsent p hp h.symm
  unfold SendRequest Net.peer
  simp [hl]

/-- Witness for C4: a request to an identity the registry does not hold. -/
theorem sendRequest_unknown_peer_witness :
    (SendRequest goJson (exNet exOkResponse) (str "abc") (str "QmOther") exMessage).stream = none ∧
      (SendRequest goJson (exNet exOkResponse) (str "abc") (str "QmOther") exMessage).host
        = (exNet exOkResponse).Host :=
  have h := sendRequest_unknown_peer goJson (exNet exOkResponse) (str "abc") (str "QmOther")
    exMessage (by decide)
  ⟨by rw [h], by rw [h]⟩

/-- C5. Remote status decides the result of the send: for a request to a registered peer
whose stream opens and whose two writes succeed, when the response read back decodes to
a header `rh`, `SendRequest` returns nil if `rh.Status = 0` and otherwise an error whose
text is exactly `rh.ErrorMessage`. -/
theorem sendRequest_remote_status (json : Codec) (net : Net) (session peerId : GoString)
    (message : Message) (info : AddrInfo) (s : Stream) (host : Host) (resp : Bytes)
    (rest : List ReadResult) (rh : MessageHeader)
    (hpeer : net.peer peerId = some info)
    (hdial : net.Host.NewStream info.ID = (.ok s, host))
    (hwrites : writesSucceed 2 s.writes = true)
    (hreads : s.reads = .data resp :: rest) (hfit : resp.length ≤ BUF)
    (hdec : Unmarshal json (zeroFill BUF resp) = .ok rh) :
    (rh.Status = 0 → (SendRequest json net session peerId message).err = none) ∧
      (rh.Status ≠ 0 →
        (SendRequest json net session peerId message).err = some rh.ErrorMessage) := by
  rw [sendRequest_opened json net session peerId message info s host hpeer hdial]
  obtain ⟨hw1, hw1'⟩ := write_ok_of_succeed 1 s (json.encode (requestHeader session message))
    hwrites
  obtain ⟨hw2, _⟩ := write_ok_of_succeed 0
    (s.Write (json.encode (requestHeader session message))).2 message.Body hw1'
  have hr2 : ((s.Write (json.encode (requestHeader session message))).2.Write
      message.Body).2.reads = .data resp :: rest := by
    rw [write_reads, write_reads, hreads]
  have hrecv := receiveResponse_decoded json _ resp rest rh hr2 hfit hdec
  rcases h1 : s.Write (json.encode (requestHeader session message)) with ⟨e1, s1⟩
  rw [h1] at hw1 hw2 hrecv
  simp only at hw1 hw2 hrecv
  subst hw1
  rcases h2 : s1.Write message.Body with ⟨e2, s2⟩
  rw [h2] at hw2 hrecv
  simp only at hw2 hrecv
  subst hw2
  rcases h3 : receiveResponse json s2 with ⟨e3, s3⟩
  rw [h3] at hrecv
  simp only at hrecv
  subst hrecv
  constructor
  · intro h0; simp [h2, h3, h0, SUSSCESS_CODE]
  · intro h0; simp [h2, h3, h0, SUSSCESS_CODE]

set_option maxRecDepth 100000 in
/-- Witness for C5: the response of the concrete scenario, `Status = 500` with
`ErrorMessage = "boom"`, makes `SendRequest` fail with the text "boom". -/
theorem sendRequest_remote_status_witness :
    (SendRequest goJson (exNet exBoomResponse) (str "abc") exPeer exMessage).err
      = some (str "boom") :=
  (sendRequest_remote_status goJson (exNet exBoomResponse) (str "abc") exPeer exMessage
    { ID := exPeer, Addrs := [str "/ip4/127.0.0.1/tcp/4001"] }
    (streamOf [.data (goEncode exBoomResponse)])
    { dials := [], opened := [exPeer], peerstore := [] }
    (goEncode exBoomResponse) [] exBoomResponse
    (by decide) (by decide) (by decide) rfl (by decide) (by decide)).2 (by decide)

set_option maxRecDepth 100000 in
/-- Counterexample to C6: on linux/amd64 (allocation limit `1 << 48`), a header that
decodes with `Size = 9223372036854775807` on a stream that ends right after it: the next
read would fail with `EOF` before any body byte has arrived, but `make([]byte, Size)`
panics before that read. `HandleStream` returns no error, writes no response and does
not close the stream. -/
theorem handleStream_truncated_counterexample :
    Unmarshal goJson (zeroFill BUF (goEncode exMaxHeader)) = .ok exMaxHeader ∧
      0 < exMaxHeader.Size ∧
      nextReadError [] = some EOF ∧
      HandleStream goJson exConsts (streamOf [.data (goEncode exMaxHeader)])
        = (.panic, streamOf []) ∧
      (streamOf []).written = [] ∧ (streamOf []).closed = false := by
  have hdec : Unmarshal goJson (zeroFill BUF (goEncode exMaxHeader)) = .ok exMaxHeader :=
    goJson_round_trip_buffer exMaxHeader (by decide)
  refine ⟨hdec, by decide, rfl, ?_, rfl, rfl⟩
  unfold HandleStream
  rw [read_data_le _ BUF (goEncode exMaxHeader) [] rfl (by decide)]
  simp only [hdec]
  rw [if_neg (by decide), if_pos (by decide)]
  rfl

/-- C6, amended. Truncated inbound frame: when the header read gives a header that
decodes with `Size > 0` that `make` can allocate (`Size` at most the allocation limit)
and a read fails (a failure of the transport, or the end of the stream) after fewer than
`Size` body bytes have arrived, `HandleStream` returns no message but that read error,
after one write to the same stream of the encoded response header with
`Type = RES_TYPE`, `Size = 0`, `Status = INTERNAL_ERROR_CODE` and `ErrorMessage` the text
of the error, and after closing the stream. -/
theorem handleStream_truncated (json : Codec) (k : Consts) (s : Stream) (hdr : Bytes)
    (chunks : List Bytes) (tail : List ReadResult) (mh : MessageHeader) (e : Error)
    (hreads : s.reads = .data hdr :: (chunks.map ReadResult.data ++ tail))
    (hfit : hdr.length ≤ BUF)
    (hdec : Unmarshal json (zeroFill BUF hdr) = .ok mh)
    (hpos : 0 < mh.Size)
    (halloc : mh.Size ≤ k.maxAlloc)
    (hshort : (chunks.flatten.length : Int) < mh.Size)
    (hfail : nextReadError tail = some e) :
    (HandleStream json k s).1 = .failure e ∧
      (HandleStream json k s).2.written = s.written ++ [json.encode
          { Typ := k.RES_TYPE, Size := 0, Session := mh.Session,
            Status := k.INTERNAL_ERROR_CODE, ErrorMessage := e, IsBroadcast := false }] ∧
      (HandleStream json k s).2.closed = true := by
  rw [handleStream_header json k s hdr _ mh hreads hfit hdec hpos halloc]
  obtain ⟨s1, h1, h2, _⟩ := readBody_fails json k mh (readBudget (chunks.map ReadResult.data))
    chunks (List.replicate mh.Size.toNat 0) 0
    { s with reads := chunks.map ReadResult.data ++ tail } tail e (le_refl _) rfl
    (by simpa using hshort) hfail
  rw [h1]
  have hw := sendErrorResponse_written json k k.INTERNAL_ERROR_CODE e mh.Session s1
  refine ⟨rfl, ?_, hw.2⟩
  rw [hw.1, h2]

set_option maxRecDepth 100000 in
/-- Witness for C6, amended: the stream ends after two of the five body bytes. -/
theorem handleStream_truncated_witness :
    (HandleStream goJson exConsts
        (streamOf (.data (goEncode exHeader) ::
          ([[104, 101]].map ReadResult.data ++ [])))).1 = .failure EOF ∧
      (HandleStream goJson exConsts
        (streamOf (.data (goEncode exHeader) ::
          ([[104, 101]].map ReadResult.data ++ [])))).2.closed = true :=
  have h := handleStream_truncated goJson exConsts
    (streamOf (.data (goEncode exHeader) :: ([[104, 101]].map ReadResult.data ++ [])))
    (goEncode exHeader) [[104, 101]] [] exHeader EOF rfl (by decide) (by decide) (by decide)
    (by decide) (by decide) rfl
  ⟨h.1, h.2.2⟩

set_option maxRecDepth 100000 in
/-- Counterexample to C7: a request with a session of 1100 bytes to a registered peer
that answers with status 0. The encoded header is 1184 bytes long, `SendRequest` writes
all of it in its first `Write` call and returns nil: nothing is detected, refused or
cut. -/
theorem oversized_header_counterexample :
    1028 < (goEncode (requestHeader (List.replicate 1100 97) exMessage)).length ∧
      (SendRequest goJson (exNet exOkResponse) (List.replicate 1100 97) exPeer exMessage).err
        = none ∧
      (SendRequest goJson (exNet exOkResponse) (List.replicate 1100 97) exPeer
          exMessage).stream.map (fun st => st.written.head?)
        = some (some (goEncode (requestHeader (List.replicate 1100 97) exMessage))) := by
  refine ⟨by decide, by decide, ?_⟩
  exact sendRequest_first_write goJson (exNet exOkResponse) (List.replicate 1100 97) exPeer
    exMessage { ID := exPeer, Addrs := [str "/ip4/127.0.0.1/tcp/4001"] }
    (streamOf [.data (goEncode exOkResponse)])
    { dials := [], opened := [exPeer], peerstore := [] } (by decide) (by decide)

/-- C7, amended. No bound is checked: `SendErrorResponse` writes the whole encoding of
its response header in one `Write` call and closes the stream, and `SendRequest` to a
registered peer whose stream opens writes the whole encoding of its request header in
its first `Write` call, whatever the length of the encoding; so a header is written in
more than 1028 bytes exactly when its encoding is longer than 1028 bytes. -/
theorem senders_write_whole_header (json : Codec) (k : Consts) (net : Net)
    (session peerId : GoString) (message : Message) (info : AddrInfo) (s : Stream) (host : Host)
    (statusCode : Int) (errorMessage : GoString) (t : Stream)
    (hpeer : net.peer peerId = some info)
    (hdial : net.Host.NewStream info.ID = (.ok s, host)) :
    (SendErrorResponse json k statusCode errorMessage session t).written
        = t.written ++ [json.encode
            { Typ := k.RES_TYPE, Size := 0, Session := session, Status := statusCode,
              ErrorMessage := errorMessage, IsBroadcast := false }] ∧
      (SendErrorResponse json k statusCode errorMessage session t).closed = true ∧
      (SendRequest json net session peerId message).stream.map
          (fun st => (st.written.drop s.written.length).head?)
        = some (some (json.encode (requestHeader session message))) :=
  ⟨(sendErrorResponse_written json k statusCode errorMessage session t).1,
    (sendErrorResponse_written json k statusCode errorMessage session t).2,
    sendRequest_first_write json net session peerId message info s host hpeer hdial⟩

/-- Witness for C7, amended: an error response with a text of five bytes, and the request
of the concrete scenario. -/
theorem senders_write_whole_header_witness :
    (SendErrorResponse goJson exConsts 500 (str "boom!") (str "abc") (streamOf [])).written
        = [] ++ [goEncode
            { Typ := 1, Size := 0, Session := str "abc", Status := 500,
              ErrorMessage := str "boom!", IsBroadcast := false }] ∧
      (streamOf []).closed = false ∧
      (SendErrorResponse goJson exConsts 500 (str "boom!") (str "abc") (streamOf [])).closed
        = true ∧
      (SendRequest goJson (exNet exOkResponse) (str "abc") exPeer exMessage).stream.map
          (fun st => (st.written.drop 0).head?)
        = some (some (goEncode (requestHeader (str "abc") exMessage))) :=
  have h := senders_write_whole_header goJson exConsts (exNet exOkResponse) (str "abc")
    exPeer exMessage { ID := exPeer, Addrs := [str "/ip4/127.0.0.1/tcp/4001"] }
    (streamOf [.data (goEncode exOkResponse)])
    { dials := [], opened := [exPeer], peerstore := [] } 500 (str "boom!") (streamOf [])
    (by decide) (by decide)
  ⟨h.1, rfl, h.2.1, h.2.2⟩

/-- C8, on the code: for an address that does not parse into a multiaddr, or from which
no peer identity can be extracted, `ConnectToPeer` does not return: it logs the error,
goes on with a nil `info` and panics on `info.ID` in the first statement of the retry
loop. The registry and the host are left as they were. -/
theorem connectToPeer_malformed_panics (lib : AddrLib) (net : Net) (dest : GoString)
    (hbad : (∃ e, lib.NewMultiaddr dest = .error e) ∨
      (∃ m e, lib.NewMultiaddr dest = .ok m ∧ lib.AddrInfoFromP2pAddr m = .error e)) :
    (ConnectToPeer lib net dest).1 = .panic net ∧
      ∃ e, (ConnectToPeer lib net dest).2.getLast?
        = some (str "error extracting peer ID from multiaddr: " ++ e) := by
  rcases hbad with ⟨e, h⟩ | ⟨m, e, h1, h2⟩
  · unfold ConnectToPeer
    simp only [h, AddrInfoFromP2pAddr]
    exact ⟨trivial, str "invalid p2p multiaddr", by simp⟩
  · unfold ConnectToPeer
    simp only [h1, AddrInfoFromP2pAddr, h2]
    exact ⟨trivial, e, by simp⟩

/-- Witness for C8: the address "not-an-address". -/
theorem connectToPeer_malformed_panics_witness :
    (ConnectToPeer exLib (exNet exOkResponse) (str "not-an-address")).1
      = .panic (exNet exOkResponse) :=
  (connectToPeer_malformed_panics exLib (exNet exOkResponse) (str "not-an-address")
    (Or.inl ⟨str "failed to parse multiaddr: must begin with /", by decide⟩)).1

set_option maxRecDepth 100000 in
/-- Counterexample to C9: the session is the single byte `0xFF`, which is not valid UTF-8.
The encoder writes it as the escape of U+FFFD, so the header bytes `SendRequest` writes
decode to a header whose `Session` is the three bytes `EF BF BD`, not the session
argument. -/
theorem sendRequest_header_fields_counterexample :
    (SendRequest goJson (exNet exOkResponse) [255] exPeer exMessage).stream.map
        (fun st => st.written.head?.map (Unmarshal goJson))
      = some (some (.ok { Typ := 0, Size := 5, Session := [239, 191, 189], Status := 0,
                          ErrorMessage := [], IsBroadcast := false })) ∧
      ([239, 191, 189] : GoString) ≠ [255] := by
  refine ⟨by decide, by decide⟩

/-- C9, amended. Header fields are set at send time: for every session that is valid
UTF-8, registered peer whose stream opens and caller-supplied message (whatever its
`Header.Size`, `Status`, `ErrorMessage` and `Session`; its `Type` and the length of its
body are Go `int`s), the header bytes `SendRequest` writes decode to the header with
`Size = len(message.Body)`, `Status = 0`, `ErrorMessage = ""`, `Session` the session
argument and the caller's `Type` and `IsBroadcast`; and when the header write succeeds
the only other write is the body, of exactly `Size` bytes. -/
theorem sendRequest_header_fields (net : Net) (session peerId : GoString)
    (message : Message) (info : AddrInfo) (s : Stream) (host : Host)
    (hpeer : net.peer peerId = some info)
    (hdial : net.Host.NewStream info.ID = (.ok s, host))
    (hses : validUTF8 0 session = true)
    (htyp : fitsInt message.Header.Typ = true)
    (hlen : fitsInt message.Body.length = true) :
    (SendRequest goJson net session peerId message).stream.map
        (fun st => ((st.written.drop s.written.length).head?).map (Unmarshal goJson))
      = some (some (.ok
          { Typ := message.Header.Typ, Size := message.Body.length, Session := session,
            Status := 0, ErrorMessage := [], IsBroadcast := message.Header.IsBroadcast })) ∧
      ((s.Write (goEncode
          { Typ := message.Header.Typ, Size := message.Body.length, Session := session,
            Status := 0, ErrorMessage := [], IsBroadcast := message.Header.IsBroadcast })).1
          = none →
        (SendRequest goJson net session peerId message).stream.map Stream.written
          = some (s.written ++ [goEncode
              { Typ := message.Header.Typ, Size := message.Body.length, Session := session,
                Status := 0, ErrorMessage := [], IsBroadcast := message.Header.IsBroadcast },
              message.Body])) := by
  have hwf : wellFormed (requestHeader session message) = true := by
    simp only [wellFormed, requestHeader, htyp, hlen, hses, Bool.and_eq_true, and_true,
      true_and]
    exact ⟨by decide, by decide⟩
  have hrt : Unmarshal goJson (goEncode (requestHeader session message))
      = .ok (requestHeader session message) :=
    goJson_round_trip_exact (requestHeader session message) hwf
  have hfirst := sendRequest_first_write goJson net session peerId message info s host
    hpeer hdial
  constructor
  · cases hst : (SendRequest goJson net session peerId message).stream with
    | none => rw [hst] at hfirst; simp at hfirst
    | some st =>
      rw [hst] at hfirst
      simp only [Option.map_some', Option.some.injEq] at hfirst ⊢
      rw [hfirst]
      simp only [Option.map_some', Option.some.injEq]
      exact hrt
  · intro hw
    exact sendRequest_writes goJson net session peerId message info s host hpeer hdial hw

set_option maxRecDepth 100000 in
/-- Witness for C9, amended: the request of the concrete scenario, whose caller left
stale values in `Size`, `Status`, `ErrorMessage` and `Session`. -/
theorem sendRequest_header_fields_witness :
    (SendRequest goJson (exNet exOkResponse) (str "abc") exPeer exMessage).stream.map
        (fun st => ((st.written.drop 0).head?).map (Unmarshal goJson))
      = some (some (.ok { Typ := 0, Size := 5, Session := str "abc", Status := 0,
                          ErrorMessage := [], IsBroadcast := false })) :=
  (sendRequest_header_fields (exNet exOkResponse) (str "abc") exPeer exMessage
    { ID := exPeer, Addrs := [str "/ip4/127.0.0.1/tcp/4001"] }
    (streamOf [.data (goEncode exOkResponse)])
    { dials := [], opened := [exPeer], peerstore := [] }
    (by decide) (by decide) (by decide) (by decide) (by decide)).1

/-- C10. The stream is closed on every exit path of a send: whenever `SendRequest`
opened a stream (the peer is registered and `NewStream` succeeded), the stream it leaves
behind is closed, whatever the writes and the response read did. -/
theorem sendRequest_closes_stream (json : Codec) (net : Net) (session peerId : GoString)
    (message : Message) (info : AddrInfo) (s : Stream) (host : Host)
    (hpeer : net.peer peerId = some info)
    (hdial : net.Host.NewStream info.ID = (.ok s, host)) :
    (SendRequest json net session peerId message).stream.map Stream.closed = some true := by
  rw [sendRequest_opened json net session peerId message info s host hpeer hdial]
  rcases s.Write (json.encode (requestHeader session message)) with ⟨e1, s1⟩
  cases e1 with
  | some e => rfl
  | none =>
    simp only
    rcases s1.Write message.Body with ⟨e2, s2⟩
    cases e2 with
    | some e => rfl
    | none =>
      simp only
      rcases receiveResponse json s2 with ⟨e3, s3⟩
      rfl

set_option maxRecDepth 100000 in
/-- Witness for C10: a send that ends with a remote error leaves its stream closed. -/
theorem sendRequest_closes_stream_witness :
    (streamOf [.data (goEncode exBoomResponse)]).closed = false ∧
      (SendRequest goJson (exNet exBoomResponse) (str "abc") exPeer exMessage).stream.map
        Stream.closed = some true :=
  ⟨rfl, sendRequest_closes_stream goJson (exNet exBoomResponse) (str "abc") exPeer exMessage
    { ID := exPeer, Addrs := [str "/ip4/127.0.0.1/tcp/4001"] }
    (streamOf [.data (goEncode exBoomResponse)])
    { dials := [], opened := [exPeer], peerstore := [] } (by decide) (by decide)⟩

end P2P
